/-
Verification of the gostcrypto library core (Streebog hash, GOST 34.10-2012
signatures) against its natural-language specification.

The Python sources `gosthash/gost_34_11_2012.py` and
`gostsignature/gost_34_10_2012.py` are shallowly embedded below: byte arrays
become `List Nat` (entries intended in [0, 256)), Python arbitrary-precision
integers become `Int`/`Nat`, Python `%` and `//` on integers become `Int.fmod`
and `Int.fdiv` (floored division, matching Python semantics), and fallible or
potentially non-terminating code returns `Except`/`Option` values.

The helper module `gostcrypto.utils` is not part of the provided sources; its
functions are modelled from the specification (each such definition carries a
doc comment starting with "Modelled from the spec:").
-/
import Mathlib

set_option maxRecDepth 4000

namespace GostHash

/-- Source: `_BLOCK_SIZE = 64`. -/
def BLOCK_SIZE : Nat := 64

/-- Source: `_V_0`, the 64-byte zero vector. -/
def V_0 : List Nat := List.replicate 64 0

/-- Source: `_V_512`, 64 bytes: second byte `0x02`, all others zero. -/
def V_512 : List Nat := 0 :: 2 :: List.replicate 62 0

/-- Source: table `_TAU` (the 8×8 byte-matrix transposition). -/
def TAU : List Nat := [
  0, 8, 16, 24, 32, 40, 48, 56,
  1, 9, 17, 25, 33, 41, 49, 57,
  2, 10, 18, 26, 34, 42, 50, 58,
  3, 11, 19, 27, 35, 43, 51, 59,
  4, 12, 20, 28, 36, 44, 52, 60,
  5, 13, 21, 29, 37, 45, 53, 61,
  6, 14, 22, 30, 38, 46, 54, 62,
  7, 15, 23, 31, 39, 47, 55, 63]

/-- Source: table `_A` of 64 little-endian 64-bit constants for transform L. -/
def A : List Nat := [
  0x8e20faa72ba0b470, 0x47107ddd9b505a38, 0xad08b0e0c3282d1c, 0xd8045870ef14980e,
  0x6c022c38f90a4c07, 0x3601161cf205268d, 0x1b8e0b0e798c13c8, 0x83478b07b2468764,
  0xa011d380818e8f40, 0x5086e740ce47c920, 0x2843fd2067adea10, 0x14aff010bdd87508,
  0x0ad97808d06cb404, 0x05e23c0468365a02, 0x8c711e02341b2d01, 0x46b60f011a83988e,
  0x90dab52a387ae76f, 0x486dd4151c3dfdb9, 0x24b86a840e90f0d2, 0x125c354207487869,
  0x092e94218d243cba, 0x8a174a9ec8121e5d, 0x4585254f64090fa0, 0xaccc9ca9328a8950,
  0x9d4df05d5f661451, 0xc0a878a0a1330aa6, 0x60543c50de970553, 0x302a1e286fc58ca7,
  0x18150f14b9ec46dd, 0x0c84890ad27623e0, 0x0642ca05693b9f70, 0x0321658cba93c138,
  0x86275df09ce8aaa8, 0x439da0784e745554, 0xafc0503c273aa42a, 0xd960281e9d1d5215,
  0xe230140fc0802984, 0x71180a8960409a42, 0xb60c05ca30204d21, 0x5b068c651810a89e,
  0x456c34887a3805b9, 0xac361a443d1c8cd2, 0x561b0d22900e4669, 0x2b838811480723ba,
  0x9bcf4486248d9f5d, 0xc3e9224312c8c1a0, 0xeffa11af0964ee50, 0xf97d86d98a327728,
  0xe4fa2054a80b329c, 0x727d102a548b194e, 0x39b008152acb8227, 0x9258048415eb419d,
  0x492c024284fbaec0, 0xaa16012142f35760, 0x550b8e9e21f7a530, 0xa48b474f9ef5dc18,
  0x70a6a56e2440598e, 0x3853dc371220a247, 0x1ca76e95091051ad, 0x0edd37c48a08a6d8,
  0x07e095624504536c, 0x8d70c431ac02a736, 0xc83862965601dd1b, 0x641c314b2b8ee083]

/-- Source: table `_C` of twelve 64-byte round constants. -/
def C : List (List Nat) := [
[
  0x07, 0x45, 0xa6, 0xf2, 0x59, 0x65, 0x80, 0xdd,
  0x23, 0x4d, 0x74, 0xcc, 0x36, 0x74, 0x76, 0x05,
  0x15, 0xd3, 0x60, 0xa4, 0x08, 0x2a, 0x42, 0xa2,
  0x01, 0x69, 0x67, 0x92, 0x91, 0xe0, 0x7c, 0x4b,
  0xfc, 0xc4, 0x85, 0x75, 0x8d, 0xb8, 0x4e, 0x71,
  0x16, 0xd0, 0x45, 0x2e, 0x43, 0x76, 0x6a, 0x2f,
  0x1f, 0x7c, 0x65, 0xc0, 0x81, 0x2f, 0xcb, 0xeb,
  0xe9, 0xda, 0xca, 0x1e, 0xda, 0x5b, 0x08, 0xb1],
[
  0xb7, 0x9b, 0xb1, 0x21, 0x70, 0x04, 0x79, 0xe6,
  0x56, 0xcd, 0xcb, 0xd7, 0x1b, 0xa2, 0xdd, 0x55,
  0xca, 0xa7, 0x0a, 0xdb, 0xc2, 0x61, 0xb5, 0x5c,
  0x58, 0x99, 0xd6, 0x12, 0x6b, 0x17, 0xb5, 0x9a,
  0x31, 0x01, 0xb5, 0x16, 0x0f, 0x5e, 0xd5, 0x61,
  0x98, 0x2b, 0x23, 0x0a, 0x72, 0xea, 0xfe, 0xf3,
  0xd7, 0xb5, 0x70, 0x0f, 0x46, 0x9d, 0xe3, 0x4f,
  0x1a, 0x2f, 0x9d, 0xa9, 0x8a, 0xb5, 0xa3, 0x6f],
[
  0xb2, 0x0a, 0xba, 0x0a, 0xf5, 0x96, 0x1e, 0x99,
  0x31, 0xdb, 0x7a, 0x86, 0x43, 0xf4, 0xb6, 0xc2,
  0x09, 0xdb, 0x62, 0x60, 0x37, 0x3a, 0xc9, 0xc1,
  0xb1, 0x9e, 0x35, 0x90, 0xe4, 0x0f, 0xe2, 0xd3,
  0x7b, 0x7b, 0x29, 0xb1, 0x14, 0x75, 0xea, 0xf2,
  0x8b, 0x1f, 0x9c, 0x52, 0x5f, 0x5e, 0xf1, 0x06,
  0x35, 0x84, 0x3d, 0x6a, 0x28, 0xfc, 0x39, 0x0a,
  0xc7, 0x2f, 0xce, 0x2b, 0xac, 0xdc, 0x74, 0xf5],
[
  0x2e, 0xd1, 0xe3, 0x84, 0xbc, 0xbe, 0x0c, 0x22,
  0xf1, 0x37, 0xe8, 0x93, 0xa1, 0xea, 0x53, 0x34,
  0xbe, 0x03, 0x52, 0x93, 0x33, 0x13, 0xb7, 0xd8,
  0x75, 0xd6, 0x03, 0xed, 0x82, 0x2c, 0xd7, 0xa9,
  0x3f, 0x35, 0x5e, 0x68, 0xad, 0x1c, 0x72, 0x9d,
  0x7d, 0x3c, 0x5c, 0x33, 0x7e, 0x85, 0x8e, 0x48,
  0xdd, 0xe4, 0x71, 0x5d, 0xa0, 0xe1, 0x48, 0xf9,
  0xd2, 0x66, 0x15, 0xe8, 0xb3, 0xdf, 0x1f, 0xef],
[
  0x57, 0xfe, 0x6c, 0x7c, 0xfd, 0x58, 0x17, 0x60,
  0xf5, 0x63, 0xea, 0xa9, 0x7e, 0xa2, 0x56, 0x7a,
  0x16, 0x1a, 0x27, 0x23, 0xb7, 0x00, 0xff, 0xdf,
  0xa3, 0xf5, 0x3a, 0x25, 0x47, 0x17, 0xcd, 0xbf,
  0xbd, 0xff, 0x0f, 0x80, 0xd7, 0x35, 0x9e, 0x35,
  0x4a, 0x10, 0x86, 0x16, 0x1f, 0x1c, 0x15, 0x7f,
  0x63, 0x23, 0xa9, 0x6c, 0x0c, 0x41, 0x3f, 0x9a,
  0x99, 0x47, 0x47, 0xad, 0xac, 0x6b, 0xea, 0x4b],
[
  0x6e, 0x7d, 0x64, 0x46, 0x7a, 0x40, 0x68, 0xfa,
  0x35, 0x4f, 0x90, 0x36, 0x72, 0xc5, 0x71, 0xbf,
  0xb6, 0xc6, 0xbe, 0xc2, 0x66, 0x1f, 0xf2, 0x0a,
  0xb4, 0xb7, 0x9a, 0x1c, 0xb7, 0xa6, 0xfa, 0xcf,
  0xc6, 0x8e, 0xf0, 0x9a, 0xb4, 0x9a, 0x7f, 0x18,
  0x6c, 0xa4, 0x42, 0x51, 0xf9, 0xc4, 0x66, 0x2d,
  0xc0, 0x39, 0x30, 0x7a, 0x3b, 0xc3, 0xa4, 0x6f,
  0xd9, 0xd3, 0x3a, 0x1d, 0xae, 0xae, 0x4f, 0xae],
[
  0x93, 0xd4, 0x14, 0x3a, 0x4d, 0x56, 0x86, 0x88,
  0xf3, 0x4a, 0x3c, 0xa2, 0x4c, 0x45, 0x17, 0x35,
  0x04, 0x05, 0x4a, 0x28, 0x83, 0x69, 0x47, 0x06,
  0x37, 0x2c, 0x82, 0x2d, 0xc5, 0xab, 0x92, 0x09,
  0xc9, 0x93, 0x7a, 0x19, 0x33, 0x3e, 0x47, 0xd3,
  0xc9, 0x87, 0xbf, 0xe6, 0xc7, 0xc6, 0x9e, 0x39,
  0x54, 0x09, 0x24, 0xbf, 0xfe, 0x86, 0xac, 0x51,
  0xec, 0xc5, 0xaa, 0xee, 0x16, 0x0e, 0xc7, 0xf4],
[
  0x1e, 0xe7, 0x02, 0xbf, 0xd4, 0x0d, 0x7f, 0xa4,
  0xd9, 0xa8, 0x51, 0x59, 0x35, 0xc2, 0xac, 0x36,
  0x2f, 0xc4, 0xa5, 0xd1, 0x2b, 0x8d, 0xd1, 0x69,
  0x90, 0x06, 0x9b, 0x92, 0xcb, 0x2b, 0x89, 0xf4,
  0x9a, 0xc4, 0xdb, 0x4d, 0x3b, 0x44, 0xb4, 0x89,
  0x1e, 0xde, 0x36, 0x9c, 0x71, 0xf8, 0xb7, 0x4e,
  0x41, 0x41, 0x6e, 0x0c, 0x02, 0xaa, 0xe7, 0x03,
  0xa7, 0xc9, 0x93, 0x4d, 0x42, 0x5b, 0x1f, 0x9b],
[
  0xdb, 0x5a, 0x23, 0x83, 0x51, 0x44, 0x61, 0x72,
  0x60, 0x2a, 0x1f, 0xcb, 0x92, 0xdc, 0x38, 0x0e,
  0x54, 0x9c, 0x07, 0xa6, 0x9a, 0x8a, 0x2b, 0x7b,
  0xb1, 0xce, 0xb2, 0xdb, 0x0b, 0x44, 0x0a, 0x80,
  0x84, 0x09, 0x0d, 0xe0, 0xb7, 0x55, 0xd9, 0x3c,
  0x24, 0x42, 0x89, 0x25, 0x1b, 0x3a, 0x7d, 0x3a,
  0xde, 0x5f, 0x16, 0xec, 0xd8, 0x9a, 0x4c, 0x94,
  0x9b, 0x22, 0x31, 0x16, 0x54, 0x5a, 0x8f, 0x37],
[
  0xed, 0x9c, 0x45, 0x98, 0xfb, 0xc7, 0xb4, 0x74,
  0xc3, 0xb6, 0x3b, 0x15, 0xd1, 0xfa, 0x98, 0x36,
  0xf4, 0x52, 0x76, 0x3b, 0x30, 0x6c, 0x1e, 0x7a,
  0x4b, 0x33, 0x69, 0xaf, 0x02, 0x67, 0xe7, 0x9f,
  0x03, 0x61, 0x33, 0x1b, 0x8a, 0xe1, 0xff, 0x1f,
  0xdb, 0x78, 0x8a, 0xff, 0x1c, 0xe7, 0x41, 0x89,
  0xf3, 0xf3, 0xe4, 0xb2, 0x48, 0xe5, 0x2a, 0x38,
  0x52, 0x6f, 0x05, 0x80, 0xa6, 0xde, 0xbe, 0xab],
[
  0x1b, 0x2d, 0xf3, 0x81, 0xcd, 0xa4, 0xca, 0x6b,
  0x5d, 0xd8, 0x6f, 0xc0, 0x4a, 0x59, 0xa2, 0xde,
  0x98, 0x6e, 0x47, 0x7d, 0x1d, 0xcd, 0xba, 0xef,
  0xca, 0xb9, 0x48, 0xea, 0xef, 0x71, 0x1d, 0x8a,
  0x79, 0x66, 0x84, 0x14, 0x21, 0x80, 0x01, 0x20,
  0x61, 0x07, 0xab, 0xeb, 0xbb, 0x6b, 0xfa, 0xd8,
  0x94, 0xfe, 0x5a, 0x63, 0xcd, 0xc6, 0x02, 0x30,
  0xfb, 0x89, 0xc8, 0xef, 0xd0, 0x9e, 0xcd, 0x7b],
[
  0x20, 0xd7, 0x1b, 0xf1, 0x4a, 0x92, 0xbc, 0x48,
  0x99, 0x1b, 0xb2, 0xd9, 0xd5, 0x17, 0xf4, 0xfa,
  0x52, 0x28, 0xe1, 0x88, 0xaa, 0xa4, 0x1d, 0xe7,
  0x86, 0xcc, 0x91, 0x18, 0x9d, 0xef, 0x80, 0x5d,
  0x9b, 0x9f, 0x21, 0x30, 0xd4, 0x12, 0x20, 0xf8,
  0x77, 0x1d, 0xdf, 0xbc, 0x32, 0x3c, 0xa4, 0xcd,
  0x7a, 0xb1, 0x49, 0x04, 0xb0, 0x80, 0x13, 0xd2,
  0xba, 0x31, 0x16, 0xf1, 0x67, 0xe7, 0x8e, 0x37]]

/-- Little-endian value of a byte list (used for `unpack` with a `<Q` layout
and for stating the 512-bit addition property). -/
def leInt : List Nat → Nat
  | [] => 0
  | b :: bs => b + 256 * leInt bs

/-- Modelled from the spec: `xor(a, b)`, bytewise XOR of two equal-length byte
sequences (`gostcrypto.utils.add_xor`, not in src/; every call site in the
hash uses two 64-byte operands). -/
def add_xor (a b : List Nat) : List Nat :=
  List.zipWith (fun x y => x ^^^ y) a b

/-- Source: the carry loop of `GOST34112012._hash_add_512`:
`op_c = op_a[i] + op_b[i] + (op_c >> 8); result[i] = op_c & 0xff`,
written as structural recursion over the two 64-byte operands. -/
def hashAdd512Aux : List Nat → List Nat → Nat → List Nat
  | [], _, _ => []
  | _, [], _ => []
  | x :: xs, y :: ys, op_c =>
      let c := x + y + (op_c >>> 8)
      (c &&& 0xff) :: hashAdd512Aux xs ys c

/-- Source: `GOST34112012._hash_add_512` (little-endian 512-bit addition). -/
def hash_add_512 (op_a op_b : List Nat) : List Nat :=
  hashAdd512Aux op_a op_b 0

/-- Source: `GOST34112012._hash_p`: `result[i] = data[_TAU[i]]` for each of
the 64 positions. -/
def hash_p (data : List Nat) : List Nat :=
  (List.range 64).map (fun i => data.getD (TAU.getD i 0) 0)

/-- Source: `GOST34112012._hash_s`: `result[i] = S_BOX[data[i]]` for each of
the 64 positions.  The table `S_BOX` lives in `gostcrypto.utils` (not in
src/); the spec only names it as "the GOST π substitution table", so the
whole hash pipeline is parametric in the table `sbox`.  No claim below
depends on its entries. -/
def hash_s (sbox : Nat → Nat) (data : List Nat) : List Nat :=
  data.map sbox

/-- Source: inner bit loop of `GOST34112012._hash_l`: `j` counts down from 63
to 0, the LSB of `internal` selects `_A[j]`, then `internal` shifts right. -/
def hashLWordGo : List Nat → Nat → Nat → Nat
  | [], _, acc => acc
  | j :: js, internal, acc =>
      hashLWordGo js (internal >>> 1)
        (if internal &&& 1 = 1 then acc ^^^ A.getD j 0 else acc)

/-- Source: one lane of `_hash_l` (64-bit accumulator for one `<Q` word). -/
def hashLWord (internal : Nat) : Nat :=
  hashLWordGo (List.range 64).reverse internal 0

/-- Little-endian 8-byte encoding of a 64-bit value (`pack` with layout `<Q`). -/
def qwordBytes (w : Nat) : List Nat :=
  (List.range 8).map (fun i => (w >>> (8 * i)) &&& 0xff)

/-- Source: `GOST34112012._hash_l`: split into eight little-endian 64-bit
lanes, transform each lane, re-emit little-endian. -/
def hash_l (data : List Nat) : List Nat :=
  ((List.range 8).map
    (fun i => qwordBytes (hashLWord (leInt ((data.drop (i * 8)).take 8))))).flatten

/-- Source: `GOST34112012._hash_get_key`. -/
def hash_get_key (sbox : Nat → Nat) (k : List Nat) (i : Nat) : List Nat :=
  hash_l (hash_p (hash_s sbox (add_xor k (C.getD i []))))

/-- Source: the round loop of `GOST34112012._hash_e` (state `internal`, key
`k`, twelve rounds). -/
def hashERounds (sbox : Nat → Nat) : Nat → List Nat → List Nat → List Nat
  | 0, _, internal => internal
  | n + 1, k, internal =>
      let internal' := hash_l (hash_p (hash_s sbox internal))
      let i := 12 - (n + 1)
      let k' := hash_get_key sbox k i
      hashERounds sbox n k' (add_xor internal' k')

/-- Source: `GOST34112012._hash_e`. -/
def hash_e (sbox : Nat → Nat) (k data : List Nat) : List Nat :=
  hashERounds sbox 12 k (add_xor k data)

/-- Source: `GOST34112012._hash_g` (the compression function G). -/
def hash_g (sbox : Nat → Nat) (hash_h hash_n data : List Nat) : List Nat :=
  let k := hash_l (hash_p (hash_s sbox (add_xor hash_n hash_h)))
  let internal := add_xor (hash_e sbox k data) hash_h
  add_xor internal data

/-- The mutable attributes of a `GOST34112012` hasher that determine every
digest: chaining value `_hash_h`, bit counter `_hash_n`, running sum
`_hash_sigma` and the unconsumed tail `_buff`.  (`_num_block` and
`_pad_block_size` are recomputed scratch values and `_name` is immutable.) -/
structure HashState where
  buff : List Nat
  hash_h : List Nat
  hash_n : List Nat
  hash_sigma : List Nat
  deriving DecidableEq

/-- Source: `GOST34112012.__init__` for an empty `data` argument
(`is256 = true` for the name "streebog256"). -/
def initState (is256 : Bool) : HashState :=
  { buff := []
    hash_h := if is256 then List.replicate 64 1 else List.replicate 64 0
    hash_n := List.replicate 64 0
    hash_sigma := List.replicate 64 0 }

/-- Source: the block loop of `GOST34112012.update`, folding `_hash_g`,
counter increment and running sum over the complete 64-byte blocks. -/
def updateLoop (sbox : Nat → Nat) :
    List Nat → List Nat → List Nat → List (List Nat) →
    List Nat × List Nat × List Nat
  | h, n, sigma, [] => (h, n, sigma)
  | h, n, sigma, block :: rest =>
      updateLoop sbox (hash_g sbox h n block) (hash_add_512 n V_512)
        (hash_add_512 sigma block) rest

/-- The complete 64-byte blocks `data[i:i+64]` for `i = 0, 64, …`,
as sliced by the loop in `GOST34112012.update`. -/
def blocksOf (data : List Nat) (num_block : Nat) : List (List Nat) :=
  (List.range num_block).map (fun i => (data.drop (i * 64)).take 64)

/-- Source: `GOST34112012.update`.  Note the final `if`: the tail buffer is
reassigned only when `pad_block_size < 64`, i.e. only when the combined data
length is not an exact multiple of the block size; otherwise `_buff` keeps
its previous (already consumed) contents. -/
def update (sbox : Nat → Nat) (s : HashState) (d : List Nat) : HashState :=
  let data := s.buff ++ d
  let num_block := data.length / 64
  let t := updateLoop sbox s.hash_h s.hash_n s.hash_sigma (blocksOf data num_block)
  let pad_block_size := 64 - data.length % 64
  { buff := if pad_block_size < 64 then data.drop (num_block * 64) else s.buff
    hash_h := t.1
    hash_n := t.2.1
    hash_sigma := t.2.2 }

/-- Hasher states reachable through the exposed API: construction with either
name (`new`/`__init__`/`reset` all produce `initState`, `copy` duplicates a
state) followed by any sequence of `update` calls. -/
inductive Reachable (sbox : Nat → Nat) : HashState → Prop
  | init256 : Reachable sbox (initState true)
  | init512 : Reachable sbox (initState false)
  | step (s : HashState) (d : List Nat) :
      Reachable sbox s → Reachable sbox (update sbox s d)

end GostHash

namespace GostHash

theorem and255_eq_mod (s : Nat) : s &&& 255 = s % 256 := by
  have h := Nat.and_pow_two_sub_one_eq_mod s 8
  norm_num at h
  exact h

theorem shiftRight8_eq_div (s : Nat) : s >>> 8 = s / 256 := by
  rw [Nat.shiftRight_eq_div_pow]

theorem addCarryStep (s L n : Nat) :
    s % 256 + 256 * ((L + s / 256) % 256 ^ n) = (s + 256 * L) % 256 ^ (n + 1) := by
  rw [pow_succ, Nat.mul_comm (256 ^ n) 256, Nat.mod_mul]
  rw [Nat.add_mul_mod_self_left s 256 L]
  rw [Nat.add_mul_div_left s L (by norm_num)]
  rw [Nat.add_comm (s / 256) L]

theorem hashAdd512Aux_length :
    ∀ (a b : List Nat) (c : Nat), a.length = b.length →
      (hashAdd512Aux a b c).length = a.length
  | [], [], _, _ => rfl
  | [], _ :: _, _, h => by simp at h
  | _ :: _, [], _, h => by simp at h
  | x :: xs, y :: ys, c, h => by
      simp only [hashAdd512Aux, List.length_cons]
      rw [hashAdd512Aux_length xs ys _ (by simpa using h)]

theorem hashAdd512Aux_lt :
    ∀ (a b : List Nat) (c : Nat), ∀ z ∈ hashAdd512Aux a b c, z < 256
  | [], b, c, z, hz => by cases b <;> simp [hashAdd512Aux] at hz
  | _ :: _, [], c, z, hz => by simp [hashAdd512Aux] at hz
  | x :: xs, y :: ys, c, z, hz => by
      simp only [hashAdd512Aux, List.mem_cons] at hz
      rcases hz with h | h
      · have hle : (x + y + (c >>> 8)) &&& 255 ≤ 255 := Nat.and_le_right
        omega
      · exact hashAdd512Aux_lt xs ys _ z h

theorem hashAdd512Aux_le :
    ∀ (a b : List Nat) (c : Nat), a.length = b.length →
      leInt (hashAdd512Aux a b c) =
        (leInt a + leInt b + (c >>> 8)) % 256 ^ a.length
  | [], [], c, _ => by simp [hashAdd512Aux, leInt, Nat.mod_one]
  | [], _ :: _, _, h => by simp at h
  | _ :: _, [], _, h => by simp at h
  | x :: xs, y :: ys, c, h => by
      have hlen : xs.length = ys.length := by simpa using h
      simp only [hashAdd512Aux, leInt]
      rw [hashAdd512Aux_le xs ys _ hlen]
      rw [and255_eq_mod, shiftRight8_eq_div, shiftRight8_eq_div, List.length_cons]
      rw [addCarryStep (x + y + c / 256) (leInt xs + leInt ys) xs.length]
      congr 1
      ring

/-- C6: `_hash_add_512(a, b)` on two 64-byte operands is a 64-byte array
whose little-endian integer value is `(le_int(a) + le_int(b)) mod 2^512`. -/
theorem C6_hash_add_512_le_value (a b : List Nat)
    (ha : a.length = 64) (hb : b.length = 64) :
    (hash_add_512 a b).length = 64 ∧ (∀ z ∈ hash_add_512 a b, z < 256) ∧
      leInt (hash_add_512 a b) = (leInt a + leInt b) % 2 ^ 512 := by
  have hab : a.length = b.length := by rw [ha, hb]
  refine ⟨by rw [hash_add_512, hashAdd512Aux_length a b 0 hab, ha],
    fun z hz => hashAdd512Aux_lt a b 0 z hz, ?_⟩
  rw [hash_add_512, hashAdd512Aux_le a b 0 hab, ha]
  norm_num

/-- Witness for C6 at the concrete operands `0xff^64` and `0xff^64`. -/
theorem C6_hash_add_512_le_value_witness :
    (List.replicate 64 (255 : Nat)).length = 64 ∧
      ((hash_add_512 (List.replicate 64 255) (List.replicate 64 255)).length = 64 ∧
        (∀ z ∈ hash_add_512 (List.replicate 64 255) (List.replicate 64 255), z < 256) ∧
        leInt (hash_add_512 (List.replicate 64 255) (List.replicate 64 255)) =
          (leInt (List.replicate 64 255) + leInt (List.replicate 64 255)) % 2 ^ 512) :=
  ⟨by simp, C6_hash_add_512_le_value _ _ (by simp) (by simp)⟩

theorem tau_tau_id : ∀ i, i < 64 → TAU.getD (TAU.getD i 0) 0 = i := by decide

theorem tau_lt : ∀ i, i < 64 → TAU.getD i 0 < 64 := by decide

theorem getD_hash_p (x : List Nat) (i : Nat) (hi : i < 64) :
    (hash_p x).getD i 0 = x.getD (TAU.getD i 0) 0 := by
  have hlen : i < (hash_p x).length := by simpa [hash_p] using hi
  rw [List.getD_eq_getElem _ _ hlen]
  simp [hash_p]

theorem range_map_getD (l : List Nat) :
    (List.range l.length).map (fun i => l.getD i 0) = l := by
  apply List.ext_getElem
  · simp
  · intro i h1 h2
    simp only [List.getElem_map, List.getElem_range]
    rw [List.getD_eq_getElem _ _ h2]

/-- C9: the byte permutation `_hash_p` is an involution on 64-byte arrays,
because `_TAU` (the 8×8 transpose) is self-inverse. -/
theorem C9_hash_p_involution (x : List Nat) (hx : x.length = 64) :
    hash_p (hash_p x) = x := by
  have h1 : hash_p (hash_p x)
      = (List.range 64).map (fun i => (hash_p x).getD (TAU.getD i 0) 0) := rfl
  have h2 : ∀ i ∈ List.range 64, (hash_p x).getD (TAU.getD i 0) 0 = x.getD i 0 := by
    intro i hi
    have hi64 : i < 64 := by simpa using hi
    rw [getD_hash_p x _ (tau_lt i hi64), tau_tau_id i hi64]
  rw [h1, List.map_congr_left h2, ← hx, range_map_getD]

/-- Witness for C9 at the concrete 64-byte array `[0, 1, …, 63]`. -/
theorem C9_hash_p_involution_witness :
    (List.range 64).length = 64 ∧ hash_p (hash_p (List.range 64)) = List.range 64 :=
  ⟨by simp, C9_hash_p_involution _ (by simp)⟩

end GostHash

namespace GostHash

theorem reachable_buff_lt (sbox : Nat → Nat) (s : HashState)
    (h : Reachable sbox s) : s.buff.length < 64 := by
  induction h with
  | init256 => simp [initState]
  | init512 => simp [initState]
  | step s d _ ih =>
      simp only [update]
      split
      · rw [List.length_drop]
        have := Nat.mod_lt ((s.buff ++ d).length) (show 0 < 64 by norm_num)
        omega
      · exact ih

/-- C8: calling `update` with the empty byte string leaves the chaining value,
counter, running sum and tail buffer of any reachable hasher state unchanged
(whatever the substitution table is). -/
theorem C8_update_empty_identity (sbox : Nat → Nat) (s : HashState)
    (h : Reachable sbox s) : update sbox s [] = s := by
  have hb := reachable_buff_lt sbox s h
  obtain ⟨b, hh, hn, hs⟩ := s
  simp only [HashState.buff] at hb
  simp only [update, List.append_nil]
  have h0 : b.length / 64 = 0 := Nat.div_eq_of_lt hb
  have h1 : b.length % 64 = b.length := Nat.mod_eq_of_lt hb
  rw [h0, h1]
  simp only [blocksOf, List.range_zero, List.map_nil, updateLoop, Nat.zero_mul,
    List.drop_zero]
  split <;> rfl

/-- Witness for C8: the freshly constructed streebog256 state is reachable and
fixed by an empty update. -/
theorem C8_update_empty_identity_witness :
    Reachable (fun _ => 0) (initState true) ∧
      update (fun _ => 0) (initState true) [] = initState true :=
  ⟨Reachable.init256, C8_update_empty_identity _ _ Reachable.init256⟩

/-- C1 (code bug evidence): starting from a fresh streebog512 hasher, feeding
32 bytes and then another 32 bytes leaves the 32 already-consumed bytes in the
tail buffer (`update` skips the buffer reassignment when the combined length
is an exact block multiple), while the one-shot update of the 64-byte
concatenation leaves the buffer empty; the two resulting hasher states
therefore differ, and the subsequent `digest()` calls hash different padded
messages.  This holds for every substitution table. -/
theorem C1_update_stale_buffer_on_block_boundary :
    ∀ sbox : Nat → Nat,
      (update sbox (update sbox (initState false) (List.replicate 32 1))
        (List.replicate 32 2)).buff = List.replicate 32 1 ∧
      (update sbox (initState false)
        (List.replicate 32 1 ++ List.replicate 32 2)).buff = [] ∧
      update sbox (update sbox (initState false) (List.replicate 32 1))
          (List.replicate 32 2) ≠
        update sbox (initState false) (List.replicate 32 1 ++ List.replicate 32 2) := by
  intro sbox
  have h1 : (update sbox (update sbox (initState false) (List.replicate 32 1))
      (List.replicate 32 2)).buff = List.replicate 32 1 := by with_unfolding_all rfl
  have h2 : (update sbox (initState false)
      (List.replicate 32 1 ++ List.replicate 32 2)).buff = [] := by with_unfolding_all rfl
  refine ⟨h1, h2, fun hcontra => ?_⟩
  rw [hcontra, h2] at h1
  exact absurd h1 (by decide)

end GostHash

namespace GostSign

/-- Abnormal outcomes of the Python signature code: a raised `ValueError`, a
failed fixed-width encoding (the spec says `uint_to_be_bytes` "fails if the
value does not fit"), or non-termination (`_bits` loops forever on a negative
value, and the `sign` retry loop repeats identically for a fixed `rand_k`). -/
inductive Fault where
  | valueError (msg : String)
  | encodeFail
  | hang
  deriving DecidableEq

/-- Source: `MODE_256 = 0x01`. -/
def MODE_256 : Int := 1

/-- Source: `MODE_512 = 0x02`. -/
def MODE_512 : Int := 2

/-- Modelled from the spec: `be_bytes_to_uint`, big-endian unsigned conversion
(`gostcrypto.utils.bytearray_to_int`, not in src/). -/
def bytearray_to_int (b : List Nat) : Int :=
  List.foldl (fun (acc : Int) (v : Nat) => acc * 256 + (v : Int)) 0 b

/-- Modelled from the spec: `uint_to_be_bytes(n, width)`, big-endian and
zero-padded on the left, failing when the value does not fit
(`gostcrypto.utils.int_to_bytearray`, not in src/). -/
def int_to_bytearray (n : Int) (w : Nat) : Option (List Nat) :=
  if 0 ≤ n ∧ n < (256 : Int) ^ w then
    some ((List.range w).map (fun i => n.toNat >>> (8 * (w - 1 - i)) &&& 255))
  else none

/-- Modelled from the spec: `equal_bytes`, fixed-width byte equality
(`gostcrypto.utils.compare`, not in src/). -/
def compare (a b : List Nat) : Bool := a == b

/-- Modelled from the spec: `is_zero_bytes` (`gostcrypto.utils.compare_to_zero`,
not in src/). -/
def compare_to_zero (b : List Nat) : Bool := b.all (fun v => v == 0)

/-- Modelled from the spec: the wipe primitive (`gostcrypto.utils.zero_fill`,
not in src/).  The source always calls it with a LENGTH
(`zero_fill(len(private_key))`), so it can only produce a fresh zeroed buffer;
it never receives, and therefore can never overwrite, the caller's buffer. -/
def zero_fill (n : Nat) : List Nat := List.replicate n 0

/-- The attributes of a successfully constructed `GOST34102012` object.
After `__init__`, `_a`, `_b`, `_x`, `_y` always hold integers (either the
given ones or the Edwards-converted ones); `_e`, `_d`, `_u`, `_v` keep
whatever was passed (possibly `None`). -/
structure SignCtx where
  p : Int
  a : Int
  b : Int
  e : Option Int
  d : Option Int
  m : Int
  q : Int
  x : Int
  y : Int
  u : Option Int
  v : Option Int
  size : Nat
  deriving DecidableEq

theorem natAbs_fmod_lt (a b : Int) (hb : b ≠ 0) :
    (Int.fmod a b).natAbs < b.natAbs := by
  rcases b with nb | nb
  · have hnb : nb ≠ 0 := fun h => hb (by simp [h])
    have h0 : (0 : Int) < Int.ofNat nb := by
      have := Nat.pos_of_ne_zero hnb
      exact Int.ofNat_pos.mpr this
    have h1 := Int.fmod_nonneg' a h0
    have h2 := Int.fmod_lt_of_pos a h0
    omega
  · rcases a with ma | ma
    · cases ma with
      | zero => simp [Int.fmod]
      | succ m =>
          have hm : m % (nb + 1) < nb + 1 := Nat.mod_lt m (by omega)
          simp only [Int.fmod, Int.subNatNat_eq_coe, Int.natAbs_negSucc,
            Nat.succ_eq_add_one]
          omega
    · show (-(Int.ofNat ((ma + 1) % (nb + 1)))).natAbs < (Int.negSucc nb).natAbs
      rw [Int.natAbs_neg]
      show ((ma + 1) % (nb + 1)) < nb + 1
      exact Nat.mod_lt _ (by omega)

/-- Structural-recursion engine for `gcdex`: the first argument is a fuel
bound on the recursion depth (each recursive call strictly shrinks
`n_mod.natAbs`, so `n_mod.natAbs + 1` units always suffice; see
`gcdex_eq`). -/
def gcdexFuel : Nat → Int → Int → Int × Int × Int
  | 0, value, _ => (value, 1, 0)
  | fuel + 1, value, n_mod =>
      if n_mod = 0 then (value, 1, 0)
      else
        let r := gcdexFuel fuel n_mod (Int.fmod value n_mod)
        (r.1, r.2.2, r.2.1 - r.2.2 * Int.fdiv value n_mod)

/-- Source: the inner helper `gcdex` of `GOST34102012._invert` (extended
Euclid; Python `%` and `//` are `Int.fmod` and `Int.fdiv`).  `gcdex_eq`
below shows this satisfies the source's recursion verbatim. -/
def gcdex (value n_mod : Int) : Int × Int × Int :=
  gcdexFuel (n_mod.natAbs + 1) value n_mod

theorem gcdexFuel_enough :
    ∀ (fuel : Nat) (value n_mod : Int), n_mod.natAbs < fuel →
      gcdexFuel fuel value n_mod = gcdex value n_mod := by
  intro fuel
  induction fuel using Nat.strong_induction_on with
  | _ fuel ih =>
      intro value n_mod hf
      match fuel, hf with
      | fuel + 1, hf =>
          show gcdexFuel (fuel + 1) value n_mod
              = gcdexFuel (n_mod.natAbs + 1) value n_mod
          by_cases h0 : n_mod = 0
          · subst h0; simp [gcdexFuel]
          · have hlt := natAbs_fmod_lt value n_mod h0
            simp only [gcdexFuel, if_neg h0]
            rw [ih fuel (by omega) n_mod (Int.fmod value n_mod) (by omega)]
            rw [ih n_mod.natAbs (by omega) n_mod (Int.fmod value n_mod) (by omega)]

/-- The source's recursion for `gcdex`. -/
theorem gcdex_eq (value n_mod : Int) :
    gcdex value n_mod =
      if n_mod = 0 then (value, 1, 0)
      else
        let r := gcdex n_mod (Int.fmod value n_mod)
        (r.1, r.2.2, r.2.1 - r.2.2 * Int.fdiv value n_mod) := by
  by_cases h0 : n_mod = 0
  · subst h0; simp [gcdex, gcdexFuel]
  · have hlt := natAbs_fmod_lt value n_mod h0
    rw [if_neg h0]
    show gcdexFuel (n_mod.natAbs + 1) value n_mod = _
    simp only [gcdexFuel, if_neg h0]
    rw [gcdexFuel_enough n_mod.natAbs n_mod (Int.fmod value n_mod) (by omega)]

/-- Source: `GOST34102012._invert` (Bezout coefficient, shifted by the
modulus when negative). -/
def invert (value n_mod : Int) : Int :=
  let result := (gcdex value n_mod).2.1
  if result < 0 then result + n_mod else result

/-- Source: `GOST34102012._edvards_to_canonical` (applied when any of
`a`, `b`, `x`, `y` is `None`; the result tuple is `(a, b, x, y)`). -/
def edvards_to_canonical (p e d u v : Int) : Int × Int × Int × Int :=
  let ed_s := Int.fmod ((e - d) * invert 4 p) p
  let ed_t := Int.fmod ((e + d) * invert 6 p) p
  (Int.fmod (ed_s ^ 2 - 3 * ed_t ^ 2) p,
   Int.fmod (2 * ed_t ^ 3 - ed_t * ed_s ^ 2) p,
   Int.fmod (ed_s * (1 + v) * invert (1 - v) p + ed_t) p,
   Int.fmod (ed_s * (1 + v) * invert ((1 - v) * u) p) p)

/-- Source: the validation part of `GOST34102012.__init__` after the curve
parameters have been resolved to integers: the `m = p` rejection, the
embedding-degree loop (faithful to the `p ** 1` typo in the M512 branch,
whose loop variable is unused), the subgroup-order range check with strict
`<`/`>` comparisons, and the curve-equation check.  Reached only with
`mode ∈ {MODE_256, MODE_512}`; the `else` branch is the `elif mode ==
MODE_512` branch of the source.  `gostInitFinal` is the common
curve-equation check performed after the mode branches, which also builds
the object. -/
def gostInitFinal (p a b m q x y : Int) (e d u v : Option Int) (size : Nat) :
    Except Fault SignCtx :=
  if Int.fmod (y * y) p ≠ Int.fmod (x ^ 3 + x * a + b) p then
    .error (.valueError "invalid parameters of the elliptic curve")
  else .ok ⟨p, a, b, e, d, m, q, x, y, u, v, size⟩

def gostInitChecks (mode p a b m q x y : Int) (e d u v : Option Int) :
    Except Fault SignCtx :=
  if m = p then .error (.valueError "invalid parameters of the elliptic curve")
  else if mode = MODE_256 then
    if (List.range' 1 31).any (fun i => Int.fmod (p ^ i) q == Int.fmod 1 q) then
      .error (.valueError "invalid parameters of the elliptic curve")
    else if q < 2 ^ 254 || q > 2 ^ 256 then
      .error (.valueError "invalid parameters of the elliptic curve")
    else gostInitFinal p a b m q x y e d u v 32
  else
    if (List.range' 1 131).any (fun _i => Int.fmod (p ^ 1) q == Int.fmod 1 q) then
      .error (.valueError "invalid parameters of the elliptic curve")
    else if q < 2 ^ 508 || q > 2 ^ 512 then
      .error (.valueError "invalid parameters of the elliptic curve")
    else gostInitFinal p a b m q x y e d u v 64

/-- Source: `GOST34102012.__init__`.  The mode check comes first; when any of
`a`, `b`, `x`, `y` is `None` the Edwards conversion runs (Python would raise
`TypeError` on `None` arithmetic if `e`, `d`, `u` or `v` were also `None`,
modelled as a `valueError "TypeError"`; `new` never produces that
combination).  Python `% 0` raises `ZeroDivisionError` while `Int.fmod _ 0`
is total; no theorem below instantiates a modulus of zero. -/
def gostInit (mode p : Int) (a b e d : Option Int) (m q : Int)
    (x y u v : Option Int) : Except Fault SignCtx :=
  if ¬(mode = MODE_256 ∨ mode = MODE_512) then
    .error (.valueError "unsupported signature mode")
  else if a.isNone || b.isNone || x.isNone || y.isNone then
    match e, d, u, v with
    | some ev, some dv, some uv, some vv =>
        let r := edvards_to_canonical p ev dv uv vv
        gostInitChecks mode p r.1 r.2.1 m q r.2.2.1 r.2.2.2 e d u v
    | _, _, _, _ => .error (.valueError "TypeError")
  else
    gostInitChecks mode p (a.getD 0) (b.getD 0) m q (x.getD 0) (y.getD 0) e d u v

/-- Source: `GOST34102012._add` (affine chord/tangent addition; the
`compare`-based equality test goes through the fixed-width byte encodings,
which fail for values outside `[0, 256^size)`). -/
def addPt (ctx : SignCtx) (x_1 x_2 y_1 y_2 : Int) : Option (Int × Int) :=
  match int_to_bytearray x_1 ctx.size, int_to_bytearray x_2 ctx.size,
        int_to_bytearray y_1 ctx.size, int_to_bytearray y_2 ctx.size with
  | some bx1, some bx2, some by1, some by2 =>
      let grad :=
        if compare bx1 bx2 && compare by1 by2 then
          Int.fmod ((3 * x_1 * x_1 + ctx.a) * invert (2 * y_1) ctx.p) ctx.p
        else
          let d_x := Int.fmod (x_2 - x_1) ctx.p
          let d_y := Int.fmod (y_2 - y_1) ctx.p
          Int.fmod (d_y * invert d_x ctx.p) ctx.p
      let x_3 := Int.fmod (grad * grad - x_1 - x_2) ctx.p
      let y_3 := Int.fmod (grad * (x_1 - x_3) - y_1) ctx.p
      some (x_3, y_3)
  | _, _, _, _ => none

/-- Structural-recursion engine for `bitsNat` (fuel-bounded; `n` units of
fuel always suffice since `n / 2 < n` for `n ≠ 0`; see `bitsNat_eq`). -/
def bitsNatFuel : Nat → Nat → List Int
  | 0, _ => []
  | fuel + 1, n =>
      if n = 0 then [] else ((n % 2 : Nat) : Int) :: bitsNatFuel fuel (n / 2)

/-- Source: `GOST34112012._bits` for a nonnegative value (LSB first,
stopping at zero); `bitsNat_eq` below recovers the source's recursion. -/
def bitsNat (n : Nat) : List Int := bitsNatFuel n n

theorem bitsNatFuel_enough :
    ∀ (fuel n : Nat), n ≤ fuel → bitsNatFuel fuel n = bitsNat n := by
  intro fuel
  induction fuel using Nat.strong_induction_on with
  | _ fuel ih =>
      intro n hf
      cases fuel with
      | zero =>
          have hn : n = 0 := by omega
          subst hn
          rfl
      | succ fuel =>
          cases n with
          | zero => simp [bitsNatFuel, bitsNat]
          | succ n' =>
              simp only [bitsNat, bitsNatFuel, if_neg (Nat.succ_ne_zero n')]
              rw [ih fuel (by omega) ((n' + 1) / 2) (by omega)]
              rw [ih n' (by omega) ((n' + 1) / 2) (by omega)]

/-- The source's recursion for `bitsNat`. -/
theorem bitsNat_eq (n : Nat) :
    bitsNat n = if n = 0 then [] else ((n % 2 : Nat) : Int) :: bitsNat (n / 2) := by
  cases n with
  | zero => rfl
  | succ n' =>
      rw [if_neg (Nat.succ_ne_zero n')]
      show bitsNatFuel (n' + 1) (n' + 1) = _
      simp only [bitsNatFuel, if_neg (Nat.succ_ne_zero n')]
      rw [bitsNatFuel_enough n' ((n' + 1) / 2) (by omega)]

/-- Source: `GOST34102012._bits`.  For a negative value the Python generator
never terminates (`value & 1` stays 1 and `value >> 1` stays negative), so
that case is `none`. -/
def bits (value : Int) : Option (List Int) :=
  if value < 0 then none else some (bitsNat value.toNat)

/-- Python truthiness of the optional coordinate arguments of `_mul_point`:
`None` and `0` are falsy. -/
def truthy : Option Int → Bool
  | none => false
  | some v => v != 0

/-- Source: the bit loop of `GOST34102012._mul_point`: on a set bit the
accumulator absorbs the running power of the base; the running power is
doubled after every bit (including the last). -/
def mulLoop (ctx : SignCtx) : List Int → Int × Int → Int × Int → Option (Int × Int)
  | [], next, _ => some next
  | bit :: rest, next, prev => do
      let next' ← if bit = 1 then addPt ctx next.1 prev.1 next.2 prev.2 else some next
      let prev' ← addPt ctx prev.1 prev.1 prev.2 prev.2
      mulLoop ctx rest next' prev'

/-- Source: `GOST34102012._mul_point`.  `mul_value` is decremented first; the
explicit point is used only when `x_op or y_op` is truthy (so the point
`(0, 0)` and `None` arguments both fall back to the context base point). -/
def mulPoint (ctx : SignCtx) (mul_value : Int) (x_op y_op : Option Int) :
    Except Fault (Int × Int) :=
  let k := mul_value - 1
  let x_prev := if truthy x_op || truthy y_op then x_op.getD 0 else ctx.x
  let y_prev := if truthy x_op || truthy y_op then y_op.getD 0 else ctx.y
  match bits k with
  | none => .error .hang
  | some bs =>
      match mulLoop ctx bs (x_prev, y_prev) (x_prev, y_prev) with
      | none => .error .encodeFail
      | some r => .ok r

/-- Source: `GOST34102012.verify`. -/
def verify (ctx : SignCtx) (public_key digest signature : List Nat) :
    Except Fault Bool :=
  if signature.length ≠ ctx.size * 2 then
    .error (.valueError "invalid signature size")
  else
    let pub_x := bytearray_to_int (public_key.take ctx.size)
    let pub_y := bytearray_to_int (public_key.drop ctx.size)
    let sign_r := bytearray_to_int (signature.take ctx.size)
    let sign_s := bytearray_to_int (signature.drop ctx.size)
    if sign_r ≤ 0 || sign_r ≥ ctx.q || sign_s ≤ 0 || sign_s ≥ ctx.q then
      .ok false
    else
      let sign_e0 := Int.fmod (bytearray_to_int digest) ctx.q
      match int_to_bytearray sign_e0 ctx.size with
      | none => .error .encodeFail
      | some be =>
          let sign_e := if compare_to_zero be then 1 else sign_e0
          let sign_v := invert sign_e ctx.q
          let sign_z_1 := Int.fmod (sign_s * sign_v) ctx.q
          let sign_z_2 := ctx.q - Int.fmod (sign_r * sign_v) ctx.q
          match mulPoint ctx sign_z_1 none none with
          | .error f => .error f
          | .ok sign_p =>
              match mulPoint ctx sign_z_2 (some pub_x) (some pub_y) with
              | .error f => .error f
              | .ok sign_q =>
                  match addPt ctx sign_p.1 sign_q.1 sign_p.2 sign_q.2 with
                  | none => .error .encodeFail
                  | some sign_c =>
                      let r_check := Int.fmod sign_c.1 ctx.q
                      match int_to_bytearray r_check ctx.size,
                            int_to_bytearray sign_r ctx.size with
                      | some b1, some b2 => .ok (compare b1 b2)
                      | _, _ => .error .encodeFail

/-- Source: `GOST34102012.sign`, restricted to a caller-supplied `rand_k`
(the `os.urandom` path draws from an external CSPRNG and is out of scope).
The returned pair is (function outcome, the caller's private-key buffer after
the call).  The source never mutates the received buffer: it only REBINDS the
local name `private_key` (`zero_fill` receives `len(private_key)`, an
integer, and returns a fresh zeroed buffer), so the second component is
always the unchanged input.  With a fixed `rand_k` the retry loops for
`r = 0` or `s = 0` recompute identical values forever, modelled as `hang`. -/
def signRun (ctx : SignCtx) (private_key digest rand_k : List Nat) :
    Except Fault (List Nat) × List Nat :=
  if private_key.length ≠ ctx.size then
    (.error (.valueError "invalid private key size"), private_key)
  else
    let sign_e0 := Int.fmod (bytearray_to_int digest) ctx.q
    match int_to_bytearray sign_e0 ctx.size with
    | none => (.error .encodeFail, private_key)
    | some be =>
        let sign_e := if compare_to_zero be then 1 else sign_e0
        if rand_k.length ≠ ctx.size then
          (.error (.valueError "invalid random value size"), private_key)
        else
          let sign_k := bytearray_to_int rand_k
          match mulPoint ctx sign_k none none with
          | .error f => (.error f, private_key)
          | .ok sign_c =>
              let sign_r := Int.fmod sign_c.1 ctx.q
              match int_to_bytearray sign_r ctx.size with
              | none => (.error .encodeFail, private_key)
              | some br =>
                  if compare_to_zero br then (.error .hang, private_key)
                  else
                    let sign_s := Int.fmod
                      (sign_r * bytearray_to_int private_key + sign_k * sign_e) ctx.q
                    match int_to_bytearray sign_s ctx.size with
                    | none => (.error .encodeFail, private_key)
                    | some bs =>
                        if compare_to_zero bs then (.error .hang, private_key)
                        else (.ok (br ++ bs), private_key)

/-- Source: `GOST34102012.public_key_generate`, again paired with the
caller's buffer after the call (the locals are only rebound). -/
def publicKeyGenerate (ctx : SignCtx) (private_key : List Nat) :
    Except Fault (List Nat) × List Nat :=
  if private_key.length ≠ ctx.size then
    (.error (.valueError "invalid private key size"), private_key)
  else
    match mulPoint ctx (bytearray_to_int private_key) none none with
    | .error f => (.error f, private_key)
    | .ok pk =>
        match int_to_bytearray pk.1 ctx.size, int_to_bytearray pk.2 ctx.size with
        | some bx, some byy => (.ok (bx ++ byy), private_key)
        | _, _ => (.error .encodeFail, private_key)

/-- A curve mapping as consumed by the module-level `new`: which of the
eleven recognised keys are present, and their values. -/
structure CurveMap where
  p : Option Int
  a : Option Int
  b : Option Int
  e : Option Int
  d : Option Int
  m : Option Int
  q : Option Int
  x : Option Int
  y : Option Int
  u : Option Int
  v : Option Int
  deriving DecidableEq

/-- Source: the `is_edvards_and_canonical` membership test in `new`. -/
def is_edvards_and_canonical (c : CurveMap) : Bool :=
  c.e.isSome && c.d.isSome && c.u.isSome && c.v.isSome &&
    c.x.isSome && c.y.isSome && c.a.isSome && c.b.isSome

/-- Source: the `is_edvards_only` membership test in `new`. -/
def is_edvards_only (c : CurveMap) : Bool :=
  c.e.isSome && c.d.isSome && c.u.isSome && c.v.isSome &&
    !c.x.isSome && !c.y.isSome && !c.a.isSome && !c.b.isSome

/-- Source: the `is_canonical_only` membership test in `new`. -/
def is_canonical_only (c : CurveMap) : Bool :=
  !c.e.isSome && !c.d.isSome && !c.u.isSome && !c.v.isSome &&
    c.x.isSome && c.y.isSome && c.a.isSome && c.b.isSome

/-- Possible outcomes of the module-level `new`: a constructed object; a
clean `sys.exit()` after a caught and printed `ValueError`; an uncaught
`KeyError` from `curve['p']`/`curve['m']`/`curve['q']` on a mapping that
passes a membership test but lacks one of those keys; an uncaught
`UnboundLocalError` at `return result` when no membership test passed; or
any other uncaught fault. -/
inductive NewResult where
  | ok (ctx : SignCtx)
  | sysExit
  | keyError
  | unboundLocal
  | otherFault (f : Fault)
  deriving DecidableEq

/-- Wraps the constructor call inside the `try`/`except ValueError` of `new`. -/
def runCtor (mode : Int) (p : Int) (a b e d : Option Int) (m q : Int)
    (x y u v : Option Int) : NewResult :=
  match gostInit mode p a b e d m q x y u v with
  | .ok ctx => .ok ctx
  | .error (.valueError _) => .sysExit
  | .error f => .otherFault f

/-- Source: the module-level `new(mode, curve)` of `gost_34_10_2012.py`. -/
def newSig (mode : Int) (curve : CurveMap) : NewResult :=
  if is_edvards_and_canonical curve then
    match curve.p, curve.m, curve.q with
    | some pv, some mv, some qv =>
        runCtor mode pv curve.a curve.b curve.e curve.d mv qv
          curve.x curve.y curve.u curve.v
    | _, _, _ => .keyError
  else if is_edvards_only curve then
    match curve.p, curve.m, curve.q with
    | some pv, some mv, some qv =>
        runCtor mode pv none none curve.e curve.d mv qv none none curve.u curve.v
    | _, _, _ => .keyError
  else if is_canonical_only curve then
    match curve.p, curve.m, curve.q with
    | some pv, some mv, some qv =>
        runCtor mode pv curve.a curve.b none none mv qv curve.x curve.y none none
    | _, _, _ => .keyError
  else .unboundLocal

end GostSign

namespace GostSign

instance exceptDecEq {ε α : Type} [DecidableEq ε] [DecidableEq α] :
    DecidableEq (Except ε α) := fun u w =>
  match u, w with
  | .ok a, .ok b =>
      if h : a = b then isTrue (by rw [h])
      else isFalse (fun hc => by cases hc; exact h rfl)
  | .error a, .error b =>
      if h : a = b then isTrue (by rw [h])
      else isFalse (fun hc => by cases hc; exact h rfl)
  | .ok _, .error _ => isFalse (fun hc => by cases hc)
  | .error _, .ok _ => isFalse (fun hc => by cases hc)

/-- C2 (code bug evidence): an M512 curve with `p = 2^508 − 1` and
`q = 2^508` satisfies `p² ≡ 1 (mod q)` (embedding degree 2), yet the
constructor accepts it, because the M512 loop evaluates `p ** 1` instead of
`p ** i` (its loop variable is unused) and `p mod q ≠ 1 mod q` holds.  The
claim (and spec §3 invariant 2) requires rejection for every
`i ∈ [1, 131]`. -/
theorem C2_m512_embedding_degree_check_defeated :
    Int.fmod ((2 ^ 508 - 1 : Int) ^ 2) (2 ^ 508) = Int.fmod 1 (2 ^ 508) ∧
      gostInit MODE_512 (2 ^ 508 - 1) (some 0) (some 0) none none 0 (2 ^ 508)
          (some 0) (some 0) none none =
        .ok ⟨2 ^ 508 - 1, 0, 0, none, none, 0, 2 ^ 508, 0, 0, none, none, 64⟩ := by
  exact ⟨by decide, by decide⟩

/-- Toy M256 parameter set accepted by the constructor (p = 2, a = b = 0,
base point (0, 0), m = 0, q = 2^255). -/
def toyCtx256 : SignCtx :=
  ⟨2, 0, 0, none, none, 0, 2 ^ 255, 0, 0, none, none, 32⟩

theorem toyCtx256_fromInit :
    gostInit MODE_256 2 (some 0) (some 0) none none 0 (2 ^ 255)
      (some 0) (some 0) none none = .ok toyCtx256 := by
  decide

/-- C5 counterexample: the claim says `q = 2^256` is a fatal construction
error in M256 mode, but the source checks `q > 2 ** 256` (strict), so a
curve with `q` exactly `2^256` is accepted. -/
theorem C5_counterexample_q_eq_2_pow_256_accepted :
    gostInit MODE_256 2 (some 0) (some 0) none none 1 (2 ^ 256)
        (some 0) (some 0) none none =
      .ok ⟨2, 0, 0, none, none, 1, 2 ^ 256, 0, 0, none, none, 32⟩ := by
  decide

theorem gostInitFinal_ok (p a b m q x y : Int) (e d u v : Option Int)
    (size : Nat) (ctx : SignCtx)
    (h : gostInitFinal p a b m q x y e d u v size = .ok ctx) : ctx.q = q := by
  unfold gostInitFinal at h
  by_cases hc : Int.fmod (y * y) p ≠ Int.fmod (x ^ 3 + x * a + b) p
  · rw [if_pos hc] at h
    exact Except.noConfusion h
  · rw [if_neg hc] at h
    cases h
    rfl

theorem gostInitChecks_q_range (mode p a b m q x y : Int) (e d u v : Option Int)
    (ctx : SignCtx)
    (h : gostInitChecks mode p a b m q x y e d u v = .ok ctx) :
    ctx.q = q ∧
      (mode = MODE_256 → 2 ^ 254 ≤ q ∧ q ≤ 2 ^ 256) ∧
      (mode ≠ MODE_256 → 2 ^ 508 ≤ q ∧ q ≤ 2 ^ 512) := by
  unfold gostInitChecks at h
  by_cases h1 : m = p
  · rw [if_pos h1] at h
    exact Except.noConfusion h
  rw [if_neg h1] at h
  by_cases h2 : mode = MODE_256
  · rw [if_pos h2] at h
    by_cases h3 :
        ((List.range' 1 31).any fun i => Int.fmod (p ^ i) q == Int.fmod 1 q) = true
    · rw [if_pos h3] at h
      exact Except.noConfusion h
    rw [if_neg h3] at h
    by_cases h4 : (q < 2 ^ 254 || q > 2 ^ 256) = true
    · rw [if_pos h4] at h
      exact Except.noConfusion h
    rw [if_neg h4] at h
    refine ⟨gostInitFinal_ok _ _ _ _ _ _ _ _ _ _ _ _ _ h, fun _ => ?_,
      fun hm => absurd h2 hm⟩
    simp only [Bool.or_eq_true, decide_eq_true_eq, not_or] at h4
    omega
  · rw [if_neg h2] at h
    by_cases h5 :
        ((List.range' 1 131).any fun _i => Int.fmod (p ^ 1) q == Int.fmod 1 q) = true
    · rw [if_pos h5] at h
      exact Except.noConfusion h
    rw [if_neg h5] at h
    by_cases h6 : (q < 2 ^ 508 || q > 2 ^ 512) = true
    · rw [if_pos h6] at h
      exact Except.noConfusion h
    rw [if_neg h6] at h
    refine ⟨gostInitFinal_ok _ _ _ _ _ _ _ _ _ _ _ _ _ h, fun hm => absurd hm h2,
      fun _ => ?_⟩
    simp only [Bool.or_eq_true, decide_eq_true_eq, not_or] at h6
    omega

/-- C5 amended: construction succeeds only if the subgroup order lies in the
CLOSED ranges `2^254 ≤ q ≤ 2^256` (M256) and `2^508 ≤ q ≤ 2^512` (M512); the
source accepts the upper endpoints because its range check uses strict
comparisons (`q > 2 ** 256`, `q > 2 ** 512`). -/
theorem C5_q_range_closed (mode p : Int) (a b e d : Option Int) (m q : Int)
    (x y u v : Option Int) (ctx : SignCtx)
    (h : gostInit mode p a b e d m q x y u v = .ok ctx) :
    (mode = MODE_256 → 2 ^ 254 ≤ ctx.q ∧ ctx.q ≤ 2 ^ 256) ∧
      (mode = MODE_512 → 2 ^ 508 ≤ ctx.q ∧ ctx.q ≤ 2 ^ 512) := by
  have main : ctx.q = q ∧
      (mode = MODE_256 → 2 ^ 254 ≤ q ∧ q ≤ 2 ^ 256) ∧
      (mode ≠ MODE_256 → 2 ^ 508 ≤ q ∧ q ≤ 2 ^ 512) := by
    unfold gostInit at h
    by_cases h1 : ¬(mode = MODE_256 ∨ mode = MODE_512)
    · rw [if_pos h1] at h
      exact Except.noConfusion h
    rw [if_neg h1] at h
    by_cases h2 : (a.isNone || b.isNone || x.isNone || y.isNone) = true
    · rw [if_pos h2] at h
      rcases e with _ | ev
      · exact Except.noConfusion h
      rcases d with _ | dv
      · exact Except.noConfusion h
      rcases u with _ | uv
      · exact Except.noConfusion h
      rcases v with _ | vv
      · exact Except.noConfusion h
      exact gostInitChecks_q_range _ _ _ _ _ _ _ _ _ _ _ _ _ h
    · rw [if_neg h2] at h
      exact gostInitChecks_q_range _ _ _ _ _ _ _ _ _ _ _ _ _ h
  obtain ⟨hq, hr1, hr2⟩ := main
  rw [hq]
  refine ⟨hr1, fun hm => hr2 ?_⟩
  rw [hm]
  decide

/-- Witness for C5 at the toy M256 curve with `q = 2^255`. -/
theorem C5_q_range_closed_witness :
    (MODE_256 = MODE_256 → 2 ^ 254 ≤ toyCtx256.q ∧ toyCtx256.q ≤ 2 ^ 256) ∧
      (MODE_256 = MODE_512 → 2 ^ 508 ≤ toyCtx256.q ∧ toyCtx256.q ≤ 2 ^ 512) :=
  C5_q_range_closed MODE_256 2 (some 0) (some 0) none none 0 (2 ^ 255)
    (some 0) (some 0) none none toyCtx256 toyCtx256_fromInit

/-- C3 (code bug evidence): on the documented wrong-size `rand_k` error path
of `sign`, and on the success path of `public_key_generate`, the caller's
private-key buffer still holds its original nonzero bytes afterwards —
`zero_fill(len(private_key))` receives a length and its result only rebinds
a local name, so no exit path can wipe the caller's buffer. -/
theorem C3_private_key_buffer_never_wiped :
    gostInit MODE_256 2 (some 0) (some 0) none none 0 (2 ^ 255)
        (some 0) (some 0) none none = .ok toyCtx256 ∧
      signRun toyCtx256 (List.replicate 32 1) [0] [0] =
        (.error (.valueError "invalid random value size"), List.replicate 32 1) ∧
      publicKeyGenerate toyCtx256 (List.replicate 32 1) =
        (.ok (List.replicate 64 0), List.replicate 32 1) ∧
      List.replicate 32 1 ≠ zero_fill 32 :=
  ⟨toyCtx256_fromInit, by decide, by decide, by decide⟩

/-- The first curve shape named by claim C10: exactly the canonical keys
`{p, a, b, m, q, x, y}`. -/
def claimCanonicalShape (c : CurveMap) : Bool :=
  c.p.isSome && c.a.isSome && c.b.isSome && c.m.isSome && c.q.isSome &&
    c.x.isSome && c.y.isSome &&
    !c.e.isSome && !c.d.isSome && !c.u.isSome && !c.v.isSome

/-- The second curve shape named by claim C10: exactly the Edwards keys
`{p, e, d, m, q, u, v}`. -/
def claimEdwardsShape (c : CurveMap) : Bool :=
  c.p.isSome && c.e.isSome && c.d.isSome && c.m.isSome && c.q.isSome &&
    c.u.isSome && c.v.isSome &&
    !c.a.isSome && !c.b.isSome && !c.x.isSome && !c.y.isSome

/-- The third curve shape named by claim C10: both full sets present. -/
def claimBothShape (c : CurveMap) : Bool :=
  c.p.isSome && c.a.isSome && c.b.isSome && c.e.isSome && c.d.isSome &&
    c.m.isSome && c.q.isSome && c.x.isSome && c.y.isSome && c.u.isSome &&
    c.v.isSome

/-- C10 counterexample: a mapping with the keys `{a, b, m, q, x, y}` but no
`p` matches none of the claim's three shapes, yet `new` does NOT reach the
return statement with `result` unassigned: the code's `is_canonical_only`
test (which only examines `e, d, u, v, x, y, a, b`) passes, and `curve['p']`
raises an uncaught `KeyError` instead. -/
theorem C10_counterexample_missing_p :
    claimCanonicalShape ⟨none, some 0, some 0, none, none, some 0, some (2 ^ 255),
        some 0, some 0, none, none⟩ = false ∧
      claimEdwardsShape ⟨none, some 0, some 0, none, none, some 0, some (2 ^ 255),
        some 0, some 0, none, none⟩ = false ∧
      claimBothShape ⟨none, some 0, some 0, none, none, some 0, some (2 ^ 255),
        some 0, some 0, none, none⟩ = false ∧
      newSig MODE_256 ⟨none, some 0, some 0, none, none, some 0, some (2 ^ 255),
        some 0, some 0, none, none⟩ = .keyError ∧
      NewResult.keyError ≠ NewResult.unboundLocal := by
  refine ⟨rfl, rfl, rfl, rfl, by decide⟩

/-- C10 amended: whenever none of the code's three membership predicates
holds (they examine only the presence of `e, d, u, v` and `a, b, x, y`),
`new` reaches its return statement with `result` unassigned and dies with an
uncaught `UnboundLocalError` — which is not the documented invalid-curve
`ValueError`.  Mappings that pass a predicate but lack `p`, `m` or `q`
instead die earlier with an uncaught `KeyError`. -/
theorem C10_new_unbound_result (mode : Int) (c : CurveMap)
    (h1 : is_edvards_and_canonical c = false)
    (h2 : is_edvards_only c = false)
    (h3 : is_canonical_only c = false) :
    newSig mode c = .unboundLocal := by
  simp [newSig, h1, h2, h3]

/-- Witness for C10 at a mapping holding the full Edwards set plus `x` but
not `y` (the claim's own example). -/
theorem C10_new_unbound_result_witness :
    is_edvards_and_canonical ⟨some 2, none, none, some 1, some 1, some 0,
        some (2 ^ 255), some 0, none, some 1, some 1⟩ = false ∧
      is_edvards_only ⟨some 2, none, none, some 1, some 1, some 0,
        some (2 ^ 255), some 0, none, some 1, some 1⟩ = false ∧
      is_canonical_only ⟨some 2, none, none, some 1, some 1, some 0,
        some (2 ^ 255), some 0, none, some 1, some 1⟩ = false ∧
      newSig MODE_256 ⟨some 2, none, none, some 1, some 1, some 0,
        some (2 ^ 255), some 0, none, some 1, some 1⟩ = .unboundLocal :=
  ⟨rfl, rfl, rfl, C10_new_unbound_result MODE_256 _ rfl rfl rfl⟩

end GostSign

namespace GostSign

theorem int_gcd_emod (v n : Int) : Int.gcd n (v % n) = Int.gcd v n := by
  have h1 : (Int.gcd n (v % n) : Int) ∣ v := by
    have ha : (Int.gcd n (v % n) : Int) ∣ n := Int.gcd_dvd_left
    have hb : (Int.gcd n (v % n) : Int) ∣ v % n := Int.gcd_dvd_right
    have hv : v % n + n * (v / n) = v := Int.emod_add_ediv v n
    calc (Int.gcd n (v % n) : Int) ∣ v % n + n * (v / n) :=
          Dvd.dvd.add hb (Dvd.dvd.mul_right ha _)
      _ = v := hv
  have h2 : (Int.gcd v n : Int) ∣ v % n := by
    have ha : (Int.gcd v n : Int) ∣ v := Int.gcd_dvd_left
    have hb : (Int.gcd v n : Int) ∣ n := Int.gcd_dvd_right
    have hv : v % n = v - n * (v / n) := by
      have := Int.emod_add_ediv v n
      omega
    rw [hv]
    exact Dvd.dvd.sub ha (Dvd.dvd.mul_right hb _)
  apply Nat.dvd_antisymm
  · exact Int.natCast_dvd_natCast.mp (Int.dvd_gcd h1 Int.gcd_dvd_left)
  · exact Int.natCast_dvd_natCast.mp (Int.dvd_gcd Int.gcd_dvd_right h2)

theorem gcdex_bezout_aux :
    ∀ (k : Nat) (v n : Int), 0 ≤ v → 0 ≤ n → n.natAbs ≤ k →
      v * (gcdex v n).2.1 + n * (gcdex v n).2.2 = (gcdex v n).1 ∧
        (gcdex v n).1 = (Int.gcd v n : Int) := by
  intro k
  induction k with
  | zero =>
      intro v n hv hn hk
      have h0 : n = 0 := by omega
      subst h0
      rw [gcdex_eq]
      simp [Int.gcd_zero_right, Int.natAbs_of_nonneg hv]
  | succ k ih =>
      intro v n hv hn hk
      by_cases h0 : n = 0
      · subst h0
        rw [gcdex_eq]
        simp [Int.gcd_zero_right, Int.natAbs_of_nonneg hv]
      · have hnpos : 0 < n := lt_of_le_of_ne hn (Ne.symm h0)
        have hfe : Int.fmod v n = v % n := Int.fmod_eq_emod v hn
        have hmodnn : 0 ≤ v % n := Int.emod_nonneg v h0
        have hmodlt : (v % n).natAbs < n.natAbs := by
          have := Int.emod_lt_of_pos v hnpos
          omega
        have iha := ih n (v % n) hn hmodnn (by omega)
        rw [gcdex_eq v n, if_neg h0, hfe]
        simp only
        constructor
        · have hfd : v - n * Int.fdiv v n = v % n := by
            have h1 : Int.fmod v n = v - n * Int.fdiv v n := Int.fmod_def v n
            omega
          calc v * (gcdex n (v % n)).2.2 +
                n * ((gcdex n (v % n)).2.1 - (gcdex n (v % n)).2.2 * Int.fdiv v n)
              = n * (gcdex n (v % n)).2.1 +
                (v - n * Int.fdiv v n) * (gcdex n (v % n)).2.2 := by ring
            _ = n * (gcdex n (v % n)).2.1 + (v % n) * (gcdex n (v % n)).2.2 := by
                rw [hfd]
            _ = (gcdex n (v % n)).1 := iha.1
        · rw [iha.2, int_gcd_emod]

theorem gcdex_bezout (v n : Int) (hv : 0 ≤ v) (hn : 0 ≤ n) :
    v * (gcdex v n).2.1 + n * (gcdex v n).2.2 = (gcdex v n).1 ∧
      (gcdex v n).1 = (Int.gcd v n : Int) :=
  gcdex_bezout_aux n.natAbs v n hv hn (le_refl _)

theorem invert_not_dvd (e q : Int) (he0 : 0 < e) (heq : e < q) :
    ¬ (q ∣ invert e q) := by
  intro hdvd
  have hq0 : 0 < q := lt_trans he0 heq
  obtain ⟨hbez, hgcd⟩ := gcdex_bezout e q (le_of_lt he0) (le_of_lt hq0)
  have hx : q ∣ (gcdex e q).2.1 := by
    unfold invert at hdvd
    by_cases hneg : (gcdex e q).2.1 < 0
    · rw [if_pos hneg] at hdvd
      have : q ∣ ((gcdex e q).2.1 + q) - q := Dvd.dvd.sub hdvd dvd_rfl
      simpa using this
    · rwa [if_neg hneg] at hdvd
  have hg : q ∣ (gcdex e q).1 := by
    rw [← hbez]
    exact Dvd.dvd.add (Dvd.dvd.mul_left hx e) (Dvd.dvd.mul_right dvd_rfl _)
  have hgpos : (0 : Int) < (gcdex e q).1 := by
    rw [hgcd]
    have := Int.gcd_pos_of_ne_zero_left q (ne_of_gt he0)
    exact_mod_cast this
  have hge : (gcdex e q).1 ≤ e := by
    have hdle : (gcdex e q).1 ∣ e := by
      rw [hgcd]
      exact Int.gcd_dvd_left
    exact Int.le_of_dvd he0 hdle
  have := Int.le_of_dvd hgpos hg
  omega

theorem fmod_mul_pos (q s v : Int) (hq : Prime q) (hqpos : 0 < q)
    (hs0 : 0 < s) (hsq : s < q) (hv : ¬ q ∣ v) :
    0 < Int.fmod (s * v) q ∧ Int.fmod (s * v) q < q := by
  have hfe : Int.fmod (s * v) q = (s * v) % q := Int.fmod_eq_emod _ (le_of_lt hqpos)
  have hlt := Int.emod_lt_of_pos (s * v) hqpos
  have hnn := Int.emod_nonneg (s * v) (ne_of_gt hqpos)
  refine ⟨?_, by omega⟩
  rcases lt_or_eq_of_le hnn with h | h
  · omega
  · exfalso
    have hdvd : q ∣ s * v := Int.dvd_of_emod_eq_zero h.symm
    rcases hq.dvd_mul.mp hdvd with hds | hdv
    · have := Int.le_of_dvd hs0 hds
      omega
    · exact hv hdv

theorem b2i_foldl_bounds (l : List Nat) :
    ∀ acc : Int, 0 ≤ acc → (∀ b ∈ l, b < 256) →
      acc * 256 ^ l.length ≤
          List.foldl (fun (a : Int) (v : Nat) => a * 256 + (v : Int)) acc l ∧
        List.foldl (fun (a : Int) (v : Nat) => a * 256 + (v : Int)) acc l <
          (acc + 1) * 256 ^ l.length := by
  induction l with
  | nil => intro acc hacc _; simp
  | cons b l ih =>
      intro acc hacc hb
      have hb0 : (b : Int) < 256 := by
        have := hb b (List.mem_cons_self b l)
        exact_mod_cast this
      have hbnn : (0 : Int) ≤ (b : Int) := Int.natCast_nonneg b
      have hacc' : (0 : Int) ≤ acc * 256 + (b : Int) := by positivity
      obtain ⟨h1, h2⟩ := ih (acc * 256 + (b : Int)) hacc'
        (fun z hz => hb z (List.mem_cons_of_mem b hz))
      simp only [List.foldl_cons, List.length_cons]
      have hpow : (0 : Int) < 256 ^ l.length := by positivity
      constructor
      · have : acc * 256 * 256 ^ l.length ≤ (acc * 256 + (b : Int)) * 256 ^ l.length := by
          nlinarith
        calc acc * 256 ^ (l.length + 1) = acc * 256 * 256 ^ l.length := by ring
          _ ≤ (acc * 256 + (b : Int)) * 256 ^ l.length := this
          _ ≤ _ := h1
      · have hstep : (acc * 256 + (b : Int) + 1) * 256 ^ l.length ≤
            (acc + 1) * 256 ^ (l.length + 1) := by
          have h3 : acc * 256 + (b : Int) + 1 ≤ (acc + 1) * 256 := by omega
          calc (acc * 256 + (b : Int) + 1) * 256 ^ l.length
              ≤ ((acc + 1) * 256) * 256 ^ l.length := by nlinarith
            _ = (acc + 1) * 256 ^ (l.length + 1) := by ring
        omega

theorem bytearray_to_int_bounds (l : List Nat) (hb : ∀ b ∈ l, b < 256) :
    0 ≤ bytearray_to_int l ∧ bytearray_to_int l < 256 ^ l.length := by
  have := b2i_foldl_bounds l 0 (le_refl 0) hb
  unfold bytearray_to_int
  constructor
  · have h := this.1
    simp at h
    omega
  · have h := this.2
    simp at h
    exact h

theorem int_to_bytearray_fits (n : Int) (w : Nat) (h0 : 0 ≤ n)
    (h1 : n < 256 ^ w) :
    int_to_bytearray n w =
      some ((List.range w).map (fun i => n.toNat >>> (8 * (w - 1 - i)) &&& 255)) := by
  unfold int_to_bytearray
  rw [if_pos ⟨h0, h1⟩]

theorem int_to_bytearray_zero (w : Nat) :
    int_to_bytearray 0 w = some (List.replicate w 0) := by
  rw [int_to_bytearray_fits 0 w (le_refl 0) (by positivity)]
  congr 1
  have h : ∀ i ∈ List.range w,
      (Int.toNat 0) >>> (8 * (w - 1 - i)) &&& 255 = 0 := by
    intro i _
    simp [Nat.zero_shiftRight]
  rw [List.map_congr_left h]
  simp [List.map_const', List.eq_replicate_iff]

theorem compare_to_zero_replicate (w : Nat) :
    compare_to_zero (List.replicate w 0) = true := by
  unfold compare_to_zero
  rw [List.all_eq_true]
  intro z hz
  have := List.eq_of_mem_replicate hz
  simp [this]

end GostSign

namespace GostSign

/-- Both coordinates of a point value lie in `[0, 256^size)`, so the
fixed-width encodings inside `_add` succeed. -/
def inRange (ctx : SignCtx) (pt : Int × Int) : Prop :=
  0 ≤ pt.1 ∧ pt.1 < 256 ^ ctx.size ∧ 0 ≤ pt.2 ∧ pt.2 < 256 ^ ctx.size

theorem addPt_total (ctx : SignCtx) (hp : 0 < ctx.p) (hpsz : ctx.p ≤ 256 ^ ctx.size)
    (x1 x2 y1 y2 : Int)
    (hx1 : 0 ≤ x1) (hx1' : x1 < 256 ^ ctx.size)
    (hx2 : 0 ≤ x2) (hx2' : x2 < 256 ^ ctx.size)
    (hy1 : 0 ≤ y1) (hy1' : y1 < 256 ^ ctx.size)
    (hy2 : 0 ≤ y2) (hy2' : y2 < 256 ^ ctx.size) :
    ∃ r : Int × Int, addPt ctx x1 x2 y1 y2 = some r ∧
      0 ≤ r.1 ∧ r.1 < ctx.p ∧ 0 ≤ r.2 ∧ r.2 < ctx.p := by
  unfold addPt
  rw [int_to_bytearray_fits x1 ctx.size hx1 hx1',
    int_to_bytearray_fits x2 ctx.size hx2 hx2',
    int_to_bytearray_fits y1 ctx.size hy1 hy1',
    int_to_bytearray_fits y2 ctx.size hy2 hy2']
  simp only
  refine ⟨_, rfl, ?_, ?_, ?_, ?_⟩
  · exact Int.fmod_nonneg' _ hp
  · exact Int.fmod_lt_of_pos _ hp
  · exact Int.fmod_nonneg' _ hp
  · exact Int.fmod_lt_of_pos _ hp

theorem mulLoop_total (ctx : SignCtx) (hp : 0 < ctx.p)
    (hpsz : ctx.p ≤ 256 ^ ctx.size) :
    ∀ (bs : List Int) (next prev : Int × Int),
      inRange ctx next → inRange ctx prev →
      ∃ r, mulLoop ctx bs next prev = some r ∧ inRange ctx r := by
  intro bs
  induction bs with
  | nil => intro next prev hn _; exact ⟨next, rfl, hn⟩
  | cons b rest ih =>
      intro next prev hn hv
      obtain ⟨hn1, hn2, hn3, hn4⟩ := hn
      obtain ⟨hv1, hv2, hv3, hv4⟩ := hv
      obtain ⟨rp, hrp, hrp1, hrp2, hrp3, hrp4⟩ :=
        addPt_total ctx hp hpsz prev.1 prev.1 prev.2 prev.2 hv1 hv2 hv1 hv2 hv3 hv4 hv3 hv4
      have hrpR : inRange ctx rp :=
        ⟨hrp1, lt_of_lt_of_le hrp2 hpsz, hrp3, lt_of_lt_of_le hrp4 hpsz⟩
      by_cases hb : b = 1
      · obtain ⟨rn, hrn, hrn1, hrn2, hrn3, hrn4⟩ :=
          addPt_total ctx hp hpsz next.1 prev.1 next.2 prev.2 hn1 hn2 hv1 hv2 hn3 hn4 hv3 hv4
        have hrnR : inRange ctx rn :=
          ⟨hrn1, lt_of_lt_of_le hrn2 hpsz, hrn3, lt_of_lt_of_le hrn4 hpsz⟩
        obtain ⟨r, hr, hrR⟩ := ih rn rp hrnR hrpR
        refine ⟨r, ?_, hrR⟩
        simp only [mulLoop, if_pos hb, hrn, hrp, Option.bind_some, Option.some_bind]
        exact hr
      · obtain ⟨r, hr, hrR⟩ := ih next rp ⟨hn1, hn2, hn3, hn4⟩ hrpR
        refine ⟨r, ?_, hrR⟩
        simp only [mulLoop, if_neg hb, hrp, Option.bind_some, Option.some_bind]
        exact hr

theorem mulPoint_total (ctx : SignCtx) (hp : 0 < ctx.p)
    (hpsz : ctx.p ≤ 256 ^ ctx.size) (mv : Int) (hmv : 1 ≤ mv)
    (x_op y_op : Option Int)
    (hstart : inRange ctx
      (if truthy x_op || truthy y_op then x_op.getD 0 else ctx.x,
       if truthy x_op || truthy y_op then y_op.getD 0 else ctx.y)) :
    ∃ r, mulPoint ctx mv x_op y_op = .ok r ∧ inRange ctx r := by
  unfold mulPoint bits
  have hk : ¬ (mv - 1 < 0) := by omega
  simp only [if_neg hk]
  obtain ⟨hs1, hs2, hs3, hs4⟩ := hstart
  obtain ⟨r, hr, hrR⟩ := mulLoop_total ctx hp hpsz (bitsNat (mv - 1).toNat)
    (if truthy x_op || truthy y_op then x_op.getD 0 else ctx.x,
     if truthy x_op || truthy y_op then y_op.getD 0 else ctx.y)
    (if truthy x_op || truthy y_op then x_op.getD 0 else ctx.x,
     if truthy x_op || truthy y_op then y_op.getD 0 else ctx.y)
    ⟨hs1, hs2, hs3, hs4⟩ ⟨hs1, hs2, hs3, hs4⟩
  rw [hr]
  exact ⟨r, rfl, hrR⟩

theorem i2b_exists (n : Int) (w : Nat) (h0 : 0 ≤ n) (h1 : n < 256 ^ w) :
    ∃ B, int_to_bytearray n w = some B ∧
      (n = 0 → compare_to_zero B = true) := by
  refine ⟨_, int_to_bytearray_fits n w h0 h1, fun hz => ?_⟩
  subst hz
  have h := int_to_bytearray_zero w
  rw [int_to_bytearray_fits 0 w (le_refl 0) (by positivity)] at h
  have hB := Option.some.inj h
  rw [hB]
  exact compare_to_zero_replicate w

end GostSign

namespace GostSign

/-- C7: `verify` raises its invalid-input `ValueError` exactly when the
signature length differs from `2·size`; for a correct-length signature it
always returns a boolean (no other exit path exists under the data-model
invariants: `p ≥ 1`, coordinates below `p`, `q` a prime fitting the
fixed-width encodings — all satisfied by every registry curve), and it
returns `false` without raising whenever the parsed `r` or `s` lies outside
`(0, q)`. -/
theorem C7_verify_error_iff_bad_length (ctx : SignCtx)
    (public_key digest signature : List Nat)
    (hp : 0 < ctx.p) (hpsz : ctx.p ≤ 256 ^ ctx.size)
    (hq : Prime ctx.q) (hq1 : 1 < ctx.q) (hqsz : ctx.q ≤ 256 ^ ctx.size)
    (hx : 0 ≤ ctx.x) (hx' : ctx.x < ctx.p) (hy : 0 ≤ ctx.y) (hy' : ctx.y < ctx.p)
    (hpk : public_key.length = 2 * ctx.size) (hpkb : ∀ b ∈ public_key, b < 256) :
    (signature.length ≠ ctx.size * 2 →
        verify ctx public_key digest signature =
          .error (.valueError "invalid signature size")) ∧
      (signature.length = ctx.size * 2 →
        ∃ bl : Bool, verify ctx public_key digest signature = .ok bl) ∧
      (signature.length = ctx.size * 2 →
        (bytearray_to_int (signature.take ctx.size) ≤ 0 ∨
          bytearray_to_int (signature.take ctx.size) ≥ ctx.q ∨
          bytearray_to_int (signature.drop ctx.size) ≤ 0 ∨
          bytearray_to_int (signature.drop ctx.size) ≥ ctx.q) →
        verify ctx public_key digest signature = .ok false) := by
  have hq0 : (0 : Int) < ctx.q := by omega
  refine ⟨?_, ?_, ?_⟩
  · intro hne
    unfold verify
    rw [if_pos hne]
  · intro hlen
    unfold verify
    rw [if_neg (not_not_intro hlen)]
    simp only
    set R := bytearray_to_int (signature.take ctx.size) with hRdef
    set S := bytearray_to_int (signature.drop ctx.size) with hSdef
    by_cases hrs : R ≤ 0 ∨ R ≥ ctx.q ∨ S ≤ 0 ∨ S ≥ ctx.q
    · have hcond : (R ≤ 0 || R ≥ ctx.q || S ≤ 0 || S ≥ ctx.q) = true := by
        simp only [Bool.or_eq_true, decide_eq_true_eq]
        tauto
      rw [if_pos hcond]
      exact ⟨false, rfl⟩
    · have hcond : ¬ ((R ≤ 0 || R ≥ ctx.q || S ≤ 0 || S ≥ ctx.q) = true) := by
        simp only [Bool.or_eq_true, decide_eq_true_eq]
        tauto
      rw [if_neg hcond]
      push_neg at hrs
      obtain ⟨hr0, hrq, hs0, hsq⟩ := hrs
      have he0a : 0 ≤ Int.fmod (bytearray_to_int digest) ctx.q :=
        Int.fmod_nonneg' _ hq0
      have he0b : Int.fmod (bytearray_to_int digest) ctx.q < ctx.q :=
        Int.fmod_lt_of_pos _ hq0
      obtain ⟨B, hB, hBz⟩ := i2b_exists (Int.fmod (bytearray_to_int digest) ctx.q)
        ctx.size he0a (lt_of_lt_of_le he0b hqsz)
      rw [hB]
      simp only
      generalize hE : (if compare_to_zero B then (1 : Int)
        else Int.fmod (bytearray_to_int digest) ctx.q) = E
      have hE1 : 0 < E ∧ E < ctx.q := by
        rw [← hE]
        by_cases hcz : compare_to_zero B = true
        · rw [if_pos hcz]
          omega
        · rw [if_neg hcz]
          have hne0 : Int.fmod (bytearray_to_int digest) ctx.q ≠ 0 :=
            fun h0 => hcz (hBz h0)
          omega
      obtain ⟨hE0, hEq⟩ := hE1
      have hvnd : ¬ ctx.q ∣ invert E ctx.q := invert_not_dvd E ctx.q hE0 hEq
      have hz1 := fmod_mul_pos ctx.q S (invert E ctx.q) hq hq0 hs0 hsq hvnd
      obtain ⟨sp, hsp, hspR⟩ := mulPoint_total ctx hp hpsz
        (Int.fmod (S * invert E ctx.q) ctx.q) (by omega) none none
        ⟨hx, lt_of_lt_of_le hx' hpsz, hy, lt_of_lt_of_le hy' hpsz⟩
      rw [hsp]
      simp only
      have hz2 := fmod_mul_pos ctx.q R (invert E ctx.q) hq hq0 hr0 hrq hvnd
      have hpxb := bytearray_to_int_bounds (public_key.take ctx.size)
        (fun b hb => hpkb b (List.mem_of_mem_take hb))
      have hpxlen : (public_key.take ctx.size).length = ctx.size := by
        rw [List.length_take]
        omega
      rw [hpxlen] at hpxb
      have hpyb := bytearray_to_int_bounds (public_key.drop ctx.size)
        (fun b hb => hpkb b (List.mem_of_mem_drop hb))
      have hpylen : (public_key.drop ctx.size).length = ctx.size := by
        rw [List.length_drop]
        omega
      rw [hpylen] at hpyb
      have hstart2 : inRange ctx
          (if truthy (some (bytearray_to_int (public_key.take ctx.size))) ||
              truthy (some (bytearray_to_int (public_key.drop ctx.size))) then
            (some (bytearray_to_int (public_key.take ctx.size))).getD 0 else ctx.x,
           if truthy (some (bytearray_to_int (public_key.take ctx.size))) ||
              truthy (some (bytearray_to_int (public_key.drop ctx.size))) then
            (some (bytearray_to_int (public_key.drop ctx.size))).getD 0 else ctx.y) := by
        by_cases htr : (truthy (some (bytearray_to_int (public_key.take ctx.size))) ||
            truthy (some (bytearray_to_int (public_key.drop ctx.size)))) = true
        · rw [if_pos htr, if_pos htr]
          exact ⟨hpxb.1, hpxb.2, hpyb.1, hpyb.2⟩
        · rw [if_neg htr, if_neg htr]
          exact ⟨hx, lt_of_lt_of_le hx' hpsz, hy, lt_of_lt_of_le hy' hpsz⟩
      obtain ⟨sq, hmulq, hsqR⟩ := mulPoint_total ctx hp hpsz
        (ctx.q - Int.fmod (R * invert E ctx.q) ctx.q) (by omega)
        (some (bytearray_to_int (public_key.take ctx.size)))
        (some (bytearray_to_int (public_key.drop ctx.size))) hstart2
      rw [hmulq]
      simp only
      obtain ⟨hsp1, hsp2, hsp3, hsp4⟩ := hspR
      obtain ⟨hsq1, hsq2, hsq3, hsq4⟩ := hsqR
      obtain ⟨sc, hsc, _, _, _, _⟩ := addPt_total ctx hp hpsz sp.1 sq.1 sp.2 sq.2
        hsp1 hsp2 hsq1 hsq2 hsp3 hsp4 hsq3 hsq4
      rw [hsc]
      simp only
      rw [int_to_bytearray_fits (Int.fmod sc.1 ctx.q) ctx.size
          (Int.fmod_nonneg' _ hq0)
          (lt_of_lt_of_le (Int.fmod_lt_of_pos _ hq0) hqsz),
        int_to_bytearray_fits R ctx.size (by omega)
          (lt_of_lt_of_le hrq hqsz)]
      simp only
      exact ⟨_, rfl⟩
  · intro hlen hrs
    unfold verify
    rw [if_neg (not_not_intro hlen)]
    simp only
    have hcond : (bytearray_to_int (signature.take ctx.size) ≤ 0 ||
        bytearray_to_int (signature.take ctx.size) ≥ ctx.q ||
        bytearray_to_int (signature.drop ctx.size) ≤ 0 ||
        bytearray_to_int (signature.drop ctx.size) ≥ ctx.q) = true := by
      simp only [Bool.or_eq_true, decide_eq_true_eq]
      tauto
    rw [if_pos hcond]

end GostSign

namespace GostSign

/-- A small context for exercising `verify`: p = 2, q = 3 (prime),
base point (0, 1), size 1. -/
def c7Ctx : SignCtx := ⟨2, 0, 0, none, none, 0, 3, 0, 1, none, none, 1⟩

/-- Witness for C7 at the context `c7Ctx`, public key `[1, 1]`, digest `[0]`
and signature `[1, 2]`. -/
theorem C7_verify_error_iff_bad_length_witness :
    (([1, 2] : List Nat).length ≠ c7Ctx.size * 2 →
        verify c7Ctx [1, 1] [0] [1, 2] =
          .error (.valueError "invalid signature size")) ∧
      (([1, 2] : List Nat).length = c7Ctx.size * 2 →
        ∃ bl : Bool, verify c7Ctx [1, 1] [0] [1, 2] = .ok bl) ∧
      (([1, 2] : List Nat).length = c7Ctx.size * 2 →
        (bytearray_to_int (([1, 2] : List Nat).take c7Ctx.size) ≤ 0 ∨
          bytearray_to_int (([1, 2] : List Nat).take c7Ctx.size) ≥ c7Ctx.q ∨
          bytearray_to_int (([1, 2] : List Nat).drop c7Ctx.size) ≤ 0 ∨
          bytearray_to_int (([1, 2] : List Nat).drop c7Ctx.size) ≥ c7Ctx.q) →
        verify c7Ctx [1, 1] [0] [1, 2] = .ok false) :=
  C7_verify_error_iff_bad_length c7Ctx [1, 1] [0] [1, 2]
    (by decide) (by decide) (Int.prime_iff_natAbs_prime.mpr (by decide))
    (by decide) (by decide) (by decide) (by decide) (by decide) (by decide)
    (by decide) (by decide)

end GostSign

namespace GostSign

theorem cast_fmod (z : Int) (P : ℕ) :
    ((Int.fmod z (P : Int) : Int) : ZMod P) = (z : ZMod P) := by
  have h : Int.fmod z (P : Int) = z - (P : Int) * Int.fdiv z (P : Int) :=
    Int.fmod_def z _
  rw [h]
  push_cast
  simp [ZMod.natCast_self]

theorem intCast_inj_on_range (a b : Int) (P : ℕ)
    (ha : 0 ≤ a) (ha' : a < (P : Int)) (hb : 0 ≤ b) (hb' : b < (P : Int)) :
    ((a : ZMod P) = (b : ZMod P)) ↔ a = b := by
  rw [ZMod.intCast_eq_intCast_iff]
  constructor
  · intro h
    have h1 : a % (P : Int) = b % (P : Int) := h
    rwa [Int.emod_eq_of_lt ha ha', Int.emod_eq_of_lt hb hb'] at h1
  · intro h
    rw [h]

theorem b2i_bytes_eq (w : Nat) :
    ∀ m : Nat, m < 256 ^ w →
      List.foldl (fun (a : Int) (v : Nat) => a * 256 + (v : Int)) 0
        ((List.range w).map (fun i => m >>> (8 * (w - 1 - i)) &&& 255)) = (m : Int) := by
  induction w with
  | zero =>
      intro m hm
      have h0 : m = 0 := by omega
      simp [h0]
  | succ w ih =>
      intro m hm
      rw [List.range_succ, List.map_append, List.foldl_append]
      have hmap : (List.range w).map (fun i => m >>> (8 * (w + 1 - 1 - i)) &&& 255)
          = (List.range w).map (fun i => (m >>> 8) >>> (8 * (w - 1 - i)) &&& 255) := by
        apply List.map_congr_left
        intro i hi
        have hi' : i < w := List.mem_range.mp hi
        have he : 8 * (w + 1 - 1 - i) = 8 + 8 * (w - 1 - i) := by omega
        rw [he, Nat.shiftRight_add]
      have hdiv : m >>> 8 = m / 256 := GostHash.shiftRight8_eq_div m
      have hlt : m >>> 8 < 256 ^ w := by
        rw [hdiv]
        have h256 : 256 ^ (w + 1) = 256 * 256 ^ w := by ring
        rw [h256] at hm
        exact Nat.div_lt_of_lt_mul hm
      rw [hmap, ih (m >>> 8) hlt]
      simp only [List.map_cons, List.map_nil, List.foldl_cons, List.foldl_nil]
      have h1 : w + 1 - 1 - w = 0 := by omega
      rw [h1]
      simp only [Nat.mul_zero, Nat.shiftRight_zero]
      rw [GostHash.and255_eq_mod m, hdiv]
      have hsplit : 256 * (m / 256) + m % 256 = m := Nat.div_add_mod m 256
      push_cast
      omega

theorem b2i_i2b (n : Int) (w : Nat) (h0 : 0 ≤ n) (h1 : n < 256 ^ w) :
    bytearray_to_int
      ((List.range w).map (fun i => n.toNat >>> (8 * (w - 1 - i)) &&& 255)) = n := by
  unfold bytearray_to_int
  have hc : ((256 ^ w : Nat) : Int) = (256 : Int) ^ w := by push_cast; ring
  have hlt : n.toNat < 256 ^ w := by
    rw [← hc] at h1
    omega
  rw [b2i_bytes_eq w n.toNat hlt]
  omega

theorem compare_i2b_iff (n m : Int) (w : Nat) (hn : 0 ≤ n) (hn' : n < 256 ^ w)
    (hm : 0 ≤ m) (hm' : m < 256 ^ w) :
    compare ((List.range w).map (fun i => n.toNat >>> (8 * (w - 1 - i)) &&& 255))
        ((List.range w).map (fun i => m.toNat >>> (8 * (w - 1 - i)) &&& 255)) = true
      ↔ n = m := by
  unfold compare
  rw [beq_iff_eq]
  constructor
  · intro h
    have h1 := b2i_i2b n w hn hn'
    rw [h, b2i_i2b m w hm hm'] at h1
    exact h1.symm
  · intro h
    rw [h]

theorem invert_cast (v : Int) (P : ℕ) [hP : Fact P.Prime] (hv : 0 ≤ v)
    (hnd : ¬ ((P : Int) ∣ v)) :
    ((invert v (P : Int) : Int) : ZMod P) = ((v : ZMod P))⁻¹ := by
  have hp : (0 : Int) ≤ (P : Int) := Int.natCast_nonneg P
  obtain ⟨hbez, hgcd⟩ := gcdex_bezout v (P : Int) hv hp
  have hg1 : Int.gcd v (P : Int) = 1 := by
    have hnd' : ¬ P ∣ v.natAbs := fun hc => hnd (Int.natCast_dvd.mpr hc)
    have hcop : Nat.Coprime P v.natAbs :=
      (Nat.Prime.coprime_iff_not_dvd hP.out).mpr hnd'
    have hPabs : ((P : Int)).natAbs = P := Int.natAbs_ofNat P
    have : Nat.gcd v.natAbs ((P : Int)).natAbs = 1 := by
      rw [hPabs, Nat.gcd_comm]
      exact hcop
    exact this
  have hz : (v : ZMod P) * (((gcdex v (P : Int)).2.1 : Int) : ZMod P) = 1 := by
    have hc := congrArg (fun z : Int => (z : ZMod P)) hbez
    simp only at hc
    push_cast at hc
    rw [ZMod.natCast_self] at hc
    rw [hgcd, hg1] at hc
    simpa using hc
  have hinv : (((gcdex v (P : Int)).2.1 : Int) : ZMod P) = ((v : ZMod P))⁻¹ :=
    (inv_eq_of_mul_eq_one_right hz).symm
  unfold invert
  by_cases hneg : (gcdex v (P : Int)).2.1 < 0
  · rw [if_pos hneg]
    push_cast
    rw [ZMod.natCast_self]
    rw [add_zero]
    exact hinv
  · rw [if_neg hneg]
    exact hinv

end GostSign

namespace GostSign

/-- The short-Weierstrass curve `y² = x³ + a·x + b` over `ZMod P`, as used
implicitly by `_add` and the constructor's curve-equation check. -/
def curveW (P : ℕ) (a b : Int) : WeierstrassCurve.Affine (ZMod P) :=
  { a₁ := 0, a₂ := 0, a₃ := 0, a₄ := (a : ZMod P), a₆ := (b : ZMod P) }

theorem curveW_negY (P : ℕ) (a b : Int) (x y : ZMod P) :
    (curveW P a b).negY x y = -y := by
  simp [curveW, WeierstrassCurve.Affine.negY]

/-- The value of an LSB-first bit list (as produced by `Nat.bits`). -/
def ofBitsB : List Bool → ℕ
  | [] => 0
  | b :: bs => (cond b 1 0) + 2 * ofBitsB bs

/-- The value of an LSB-first 0/1 integer list (as produced by `_bits`). -/
def ofBits01 : List Int → ℕ
  | [] => 0
  | b :: bs => (if b = 1 then 1 else 0) + 2 * ofBits01 bs

theorem ofBitsB_bits (n : ℕ) : ofBitsB (Nat.bits n) = n := by
  induction n using Nat.binaryRec with
  | z => simp [Nat.zero_bits, ofBitsB]
  | f b n ih =>
      by_cases hn : n = 0
      · subst hn
        cases b
        · simp [Nat.bit, ofBitsB]
        · rw [show Nat.bit true 0 = 1 from rfl, Nat.one_bits]
          simp [ofBitsB]
      · rw [Nat.bits_append_bit n b (fun h => absurd h hn)]
        simp only [ofBitsB, ih, Nat.bit_val]
        cases b <;> simp <;> omega

theorem ofBits01_bitsNat (m : Nat) : ofBits01 (bitsNat m) = m := by
  induction m using Nat.strong_induction_on with
  | _ m ih =>
      rw [bitsNat_eq]
      by_cases h0 : m = 0
      · simp [if_pos h0, ofBits01, h0]
      · rw [if_neg h0]
        have hlt : m / 2 < m := Nat.div_lt_self (Nat.pos_of_ne_zero h0) (by norm_num)
        simp only [ofBits01, ih (m / 2) hlt]
        rcases Nat.mod_two_eq_zero_or_one m with h | h
        · rw [h]
          norm_num
          omega
        · rw [h]
          norm_num
          omega

/-- Modelled from the claim: the ordinary textbook double-and-add loop, LSB
first, over the elliptic-curve group (the point at infinity `0` is the
identity; on a set bit the accumulator absorbs the running double). -/
noncomputable def dblAddAux {F : Type} [Field F] {W : WeierstrassCurve.Affine F} :
    List Bool → W.Point → W.Point → W.Point
  | [], acc, _ => acc
  | b :: bs, acc, base => dblAddAux bs (if b then acc + base else acc) (base + base)

/-- Modelled from the claim: `[k]P` computed by textbook double-and-add. -/
noncomputable def dblAdd {F : Type} [Field F] {W : WeierstrassCurve.Affine F}
    (k : ℕ) (Q : W.Point) : W.Point :=
  dblAddAux (Nat.bits k) 0 Q

theorem dblAddAux_eq {F : Type} [Field F] {W : WeierstrassCurve.Affine F} :
    ∀ (bs : List Bool) (acc base : W.Point),
      dblAddAux bs acc base = acc + (ofBitsB bs) • base := by
  intro bs
  induction bs with
  | nil => intro acc base; simp [dblAddAux, ofBitsB]
  | cons b bs ih =>
      intro acc base
      have h2 : (2 * ofBitsB bs) • base = ofBitsB bs • (base + base) := by
        rw [smul_add, two_mul, add_nsmul]
      cases b
      · show dblAddAux bs acc (base + base)
            = acc + ((0 : ℕ) + 2 * ofBitsB bs) • base
        rw [ih, Nat.zero_add, h2]
      · show dblAddAux bs (acc + base) (base + base)
            = acc + ((1 : ℕ) + 2 * ofBitsB bs) • base
        rw [ih, add_nsmul, one_nsmul, h2, add_assoc]
theorem dblAdd_eq_smul {F : Type} [Field F] {W : WeierstrassCurve.Affine F}
    (k : ℕ) (Q : W.Point) : dblAdd k Q = k • Q := by
  unfold dblAdd
  rw [dblAddAux_eq, ofBitsB_bits, zero_add]

end GostSign

namespace GostSign

/-- The tangent/chord gradient computed by `_add`, with the branch condition
restated on the integers themselves (equivalent to the source's
byte-encoding `compare` whenever both coordinates fit the encoding width;
see `addPt_eq`). -/
def gradOf (ctx : SignCtx) (x_1 x_2 y_1 y_2 : Int) : Int :=
  if x_1 = x_2 ∧ y_1 = y_2 then
    Int.fmod ((3 * x_1 * x_1 + ctx.a) * invert (2 * y_1) ctx.p) ctx.p
  else
    Int.fmod (Int.fmod (y_2 - y_1) ctx.p * invert (Int.fmod (x_2 - x_1) ctx.p) ctx.p) ctx.p

/-- The first output coordinate of `_add` in closed form. -/
def addPtX (ctx : SignCtx) (x_1 x_2 y_1 y_2 : Int) : Int :=
  Int.fmod (gradOf ctx x_1 x_2 y_1 y_2 * gradOf ctx x_1 x_2 y_1 y_2 - x_1 - x_2) ctx.p

/-- The second output coordinate of `_add` in closed form. -/
def addPtY (ctx : SignCtx) (x_1 x_2 y_1 y_2 : Int) : Int :=
  Int.fmod (gradOf ctx x_1 x_2 y_1 y_2 * (x_1 - addPtX ctx x_1 x_2 y_1 y_2) - y_1) ctx.p

/-- Modelled from the claim: one `_add` call does not "encounter the point at
infinity" — the tangent is defined in the doubling branch (`2·y₁ ≢ 0 mod p`)
and the chord is non-vertical in the chord branch (`x₁ ≢ x₂ mod p`). -/
def stepOK (p x_1 x_2 y_1 y_2 : Int) : Bool :=
  if x_1 = x_2 ∧ y_1 = y_2 then !(Int.fmod (2 * y_1) p == 0)
  else !(Int.fmod (x_1 - x_2) p == 0)

/-- Modelled from the claim: every `_add` call made by the `_mul_point` bit
loop satisfies `stepOK` (structural mirror of `mulLoop`). -/
def mulLoopSafe (ctx : SignCtx) : List Int → Int × Int → Int × Int → Bool
  | [], _, _ => true
  | bit :: rest, next, prev =>
      let ok1 := if bit = 1 then stepOK ctx.p next.1 prev.1 next.2 prev.2 else true
      match (if bit = 1 then addPt ctx next.1 prev.1 next.2 prev.2 else some next) with
      | none => false
      | some next' =>
          match addPt ctx prev.1 prev.1 prev.2 prev.2 with
          | none => false
          | some prev' =>
              ok1 && stepOK ctx.p prev.1 prev.1 prev.2 prev.2 &&
                mulLoopSafe ctx rest next' prev'

/-- Modelled from the claim: the side condition of C4 — no addition step of
`_mul_point(mul_value, x_op, y_op)` encounters the point at infinity. -/
def mulPointSafe (ctx : SignCtx) (mul_value : Int) (x_op y_op : Option Int) : Bool :=
  let k := mul_value - 1
  let x_prev := if truthy x_op || truthy y_op then x_op.getD 0 else ctx.x
  let y_prev := if truthy x_op || truthy y_op then y_op.getD 0 else ctx.y
  match bits k with
  | none => false
  | some bs => mulLoopSafe ctx bs (x_prev, y_prev) (x_prev, y_prev)

theorem fmod_cast_zero_iff (z : Int) (P : ℕ) [NeZero P] :
    Int.fmod z (P : Int) = 0 ↔ ((z : ZMod P) = 0) := by
  rw [Int.fmod_eq_emod z (Int.natCast_nonneg P), ← Int.dvd_iff_emod_eq_zero,
    ZMod.intCast_zmod_eq_zero_iff_dvd]

theorem point_some_congr {F : Type} [Field F] {W : WeierstrassCurve.Affine F}
    {u1 v1 u2 v2 : F} (hx : u1 = u2) (hy : v1 = v2)
    (g1 : W.Nonsingular u1 v1) (g2 : W.Nonsingular u2 v2) :
    WeierstrassCurve.Affine.Point.some g1 = WeierstrassCurve.Affine.Point.some g2 := by
  subst hx
  subst hy
  rfl

theorem addPt_eq (ctx : SignCtx) (x1 x2 y1 y2 : Int)
    (hx1 : 0 ≤ x1) (hx1' : x1 < 256 ^ ctx.size)
    (hx2 : 0 ≤ x2) (hx2' : x2 < 256 ^ ctx.size)
    (hy1 : 0 ≤ y1) (hy1' : y1 < 256 ^ ctx.size)
    (hy2 : 0 ≤ y2) (hy2' : y2 < 256 ^ ctx.size) :
    addPt ctx x1 x2 y1 y2 =
      some (addPtX ctx x1 x2 y1 y2, addPtY ctx x1 x2 y1 y2) := by
  unfold addPt addPtY addPtX gradOf
  rw [int_to_bytearray_fits x1 ctx.size hx1 hx1',
    int_to_bytearray_fits x2 ctx.size hx2 hx2',
    int_to_bytearray_fits y1 ctx.size hy1 hy1',
    int_to_bytearray_fits y2 ctx.size hy2 hy2']
  simp only
  by_cases h : x1 = x2 ∧ y1 = y2
  · obtain ⟨ha, hb⟩ := h
    subst ha
    subst hb
    simp only [compare, beq_self_eq_true, Bool.and_self, if_pos rfl, if_true,
      and_self, if_pos (And.intro rfl rfl)]
  · have hcf : (compare
        ((List.range ctx.size).map (fun i => x1.toNat >>> (8 * (ctx.size - 1 - i)) &&& 255))
        ((List.range ctx.size).map (fun i => x2.toNat >>> (8 * (ctx.size - 1 - i)) &&& 255)) &&
      compare
        ((List.range ctx.size).map (fun i => y1.toNat >>> (8 * (ctx.size - 1 - i)) &&& 255))
        ((List.range ctx.size).map (fun i => y2.toNat >>> (8 * (ctx.size - 1 - i)) &&& 255)))
        = false := by
      by_cases hx12 : x1 = x2
      · have hy12 : y1 ≠ y2 := fun hc => h ⟨hx12, hc⟩
        have hc2 : compare
            ((List.range ctx.size).map (fun i => y1.toNat >>> (8 * (ctx.size - 1 - i)) &&& 255))
            ((List.range ctx.size).map (fun i => y2.toNat >>> (8 * (ctx.size - 1 - i)) &&& 255))
            = false :=
          Bool.eq_false_iff.mpr (fun hc =>
            hy12 ((compare_i2b_iff y1 y2 ctx.size hy1 hy1' hy2 hy2').mp hc))
        rw [hc2, Bool.and_false]
      · have hc1 : compare
            ((List.range ctx.size).map (fun i => x1.toNat >>> (8 * (ctx.size - 1 - i)) &&& 255))
            ((List.range ctx.size).map (fun i => x2.toNat >>> (8 * (ctx.size - 1 - i)) &&& 255))
            = false :=
          Bool.eq_false_iff.mpr (fun hc =>
            hx12 ((compare_i2b_iff x1 x2 ctx.size hx1 hx1' hx2 hx2').mp hc))
        rw [hc1, Bool.false_and]
    rw [hcf, if_neg h]
    simp only [Bool.false_eq_true, if_false]

end GostSign

namespace GostSign

theorem stepOK_double (p x1 x2 y1 y2 : Int) (hx : x1 = x2) (hy : y1 = y2)
    (hs : stepOK p x1 x2 y1 y2 = true) : Int.fmod (2 * y1) p ≠ 0 := by
  unfold stepOK at hs
  rw [if_pos ⟨hx, hy⟩] at hs
  intro hc
  rw [hc] at hs
  simp at hs

theorem stepOK_chord (p x1 x2 y1 y2 : Int) (hne : ¬ (x1 = x2 ∧ y1 = y2))
    (hs : stepOK p x1 x2 y1 y2 = true) : Int.fmod (x1 - x2) p ≠ 0 := by
  unfold stepOK at hs
  rw [if_neg hne] at hs
  intro hc
  rw [hc] at hs
  simp at hs

theorem gradOf_cast (P : ℕ) [hP : Fact P.Prime] (ctx : SignCtx)
    (hp : ctx.p = (P : Int)) (x1 x2 y1 y2 : Int)
    (hy1 : 0 ≤ y1)
    (hs : stepOK ctx.p x1 x2 y1 y2 = true) :
    ((gradOf ctx x1 x2 y1 y2 : Int) : ZMod P)
      = (curveW P ctx.a ctx.b).slope (x1 : ZMod P) (x2 : ZMod P)
          (y1 : ZMod P) (y2 : ZMod P) := by
  haveI : NeZero P := ⟨hP.out.ne_zero⟩
  unfold gradOf
  by_cases h : x1 = x2 ∧ y1 = y2
  · obtain ⟨ha, hb⟩ := h
    have hnd : ¬ ((P : Int) ∣ 2 * y1) := by
      have := stepOK_double ctx.p x1 x2 y1 y2 ha hb hs
      rw [hp] at this
      intro hc
      exact this ((fmod_cast_zero_iff (2 * y1) P).mpr
        ((ZMod.intCast_zmod_eq_zero_iff_dvd (2 * y1) P).mpr hc))
    have hyne : (y1 : ZMod P) ≠ (curveW P ctx.a ctx.b).negY (x2 : ZMod P) (y2 : ZMod P) := by
      rw [curveW_negY, ← hb]
      intro hc
      have h2 : ((2 * y1 : Int) : ZMod P) = 0 := by
        push_cast
        linear_combination hc
      exact hnd ((ZMod.intCast_zmod_eq_zero_iff_dvd (2 * y1) P).mp h2)
    rw [if_pos ⟨ha, hb⟩, hp, cast_fmod, Int.cast_mul,
      invert_cast (2 * y1) P (by omega) hnd,
      WeierstrassCurve.Affine.slope_of_Y_ne (by rw [ha]) hyne]
    rw [div_eq_mul_inv]
    have hnum : ((3 * x1 * x1 + ctx.a : Int) : ZMod P)
        = 3 * (x1 : ZMod P) ^ 2 + 2 * (curveW P ctx.a ctx.b).a₂ * (x1 : ZMod P)
          + (curveW P ctx.a ctx.b).a₄ - (curveW P ctx.a ctx.b).a₁ * (y1 : ZMod P) := by
      simp only [curveW]
      push_cast
      ring
    have hden : ((2 * y1 : Int) : ZMod P)
        = (y1 : ZMod P) - (curveW P ctx.a ctx.b).negY (x1 : ZMod P) (y1 : ZMod P) := by
      rw [curveW_negY]
      push_cast
      ring
    rw [hnum, hden]
  · have hnd : ¬ ((P : Int) ∣ (x1 - x2)) := by
      have := stepOK_chord ctx.p x1 x2 y1 y2 h hs
      rw [hp] at this
      intro hc
      exact this ((fmod_cast_zero_iff (x1 - x2) P).mpr
        ((ZMod.intCast_zmod_eq_zero_iff_dvd (x1 - x2) P).mpr hc))
    have hxne : (x1 : ZMod P) ≠ (x2 : ZMod P) := by
      intro hc
      apply hnd
      rw [← ZMod.intCast_zmod_eq_zero_iff_dvd]
      push_cast
      rw [hc]
      ring
    have hnd' : ¬ ((P : Int) ∣ Int.fmod (x2 - x1) (P : Int)) := by
      intro hc
      apply hnd
      have h1 : ((Int.fmod (x2 - x1) (P : Int) : Int) : ZMod P) = 0 :=
        (ZMod.intCast_zmod_eq_zero_iff_dvd _ P).mpr hc
      rw [cast_fmod] at h1
      rw [← ZMod.intCast_zmod_eq_zero_iff_dvd]
      push_cast at h1 ⊢
      have h2 : ((x1 : ZMod P)) - ((x2 : ZMod P)) = -(((x2 : ZMod P)) - ((x1 : ZMod P))) := by
        ring
      rw [h2, h1]
      ring
    rw [if_neg h, hp, cast_fmod, Int.cast_mul, cast_fmod,
      invert_cast (Int.fmod (x2 - x1) (P : Int)) P
        (Int.fmod_nonneg' _ (by exact_mod_cast hP.out.pos)) hnd',
      cast_fmod,
      WeierstrassCurve.Affine.slope_of_X_ne hxne]
    rw [div_eq_mul_inv]
    push_cast
    have h2 : ((x2 : ZMod P)) - ((x1 : ZMod P)) = -(((x1 : ZMod P)) - ((x2 : ZMod P))) := by
      ring
    rw [h2, inv_neg]
    ring

end GostSign

namespace GostSign

theorem stepOK_imp (P : ℕ) [hP : Fact P.Prime] (ctx : SignCtx)
    (hp : ctx.p = (P : Int)) (x1 x2 y1 y2 : Int)
    (hs : stepOK ctx.p x1 x2 y1 y2 = true) :
    (x1 : ZMod P) = (x2 : ZMod P) →
      (y1 : ZMod P) ≠ (curveW P ctx.a ctx.b).negY (x2 : ZMod P) (y2 : ZMod P) := by
  haveI : NeZero P := ⟨hP.out.ne_zero⟩
  by_cases h : x1 = x2 ∧ y1 = y2
  · obtain ⟨ha, hb⟩ := h
    intro _
    have hnd : ¬ ((P : Int) ∣ 2 * y1) := by
      have := stepOK_double ctx.p x1 x2 y1 y2 ha hb hs
      rw [hp] at this
      intro hc
      exact this ((fmod_cast_zero_iff (2 * y1) P).mpr
        ((ZMod.intCast_zmod_eq_zero_iff_dvd (2 * y1) P).mpr hc))
    rw [curveW_negY, ← hb]
    intro hc
    have h2 : ((2 * y1 : Int) : ZMod P) = 0 := by
      push_cast
      linear_combination hc
    exact hnd ((ZMod.intCast_zmod_eq_zero_iff_dvd (2 * y1) P).mp h2)
  · intro hc
    exfalso
    have hnd : ¬ ((P : Int) ∣ (x1 - x2)) := by
      have := stepOK_chord ctx.p x1 x2 y1 y2 h hs
      rw [hp] at this
      intro hdvd
      exact this ((fmod_cast_zero_iff (x1 - x2) P).mpr
        ((ZMod.intCast_zmod_eq_zero_iff_dvd (x1 - x2) P).mpr hdvd))
    apply hnd
    rw [← ZMod.intCast_zmod_eq_zero_iff_dvd]
    push_cast
    rw [hc]
    ring

theorem addPt_group (P : ℕ) [hP : Fact P.Prime] (ctx : SignCtx)
    (hp : ctx.p = (P : Int)) (x1 x2 y1 y2 : Int) (hy1 : 0 ≤ y1)
    (h1 : (curveW P ctx.a ctx.b).Nonsingular (x1 : ZMod P) (y1 : ZMod P))
    (h2 : (curveW P ctx.a ctx.b).Nonsingular (x2 : ZMod P) (y2 : ZMod P))
    (hs : stepOK ctx.p x1 x2 y1 y2 = true) :
    ∃ h3 : (curveW P ctx.a ctx.b).Nonsingular
        ((addPtX ctx x1 x2 y1 y2 : Int) : ZMod P)
        ((addPtY ctx x1 x2 y1 y2 : Int) : ZMod P),
      WeierstrassCurve.Affine.Point.some h1 + WeierstrassCurve.Affine.Point.some h2
        = WeierstrassCurve.Affine.Point.some h3 := by
  have hxy := stepOK_imp P ctx hp x1 x2 y1 y2 hs
  have hgc := gradOf_cast P ctx hp x1 x2 y1 y2 hy1 hs
  have hX : ((addPtX ctx x1 x2 y1 y2 : Int) : ZMod P)
      = (curveW P ctx.a ctx.b).addX (x1 : ZMod P) (x2 : ZMod P)
          ((curveW P ctx.a ctx.b).slope (x1 : ZMod P) (x2 : ZMod P)
            (y1 : ZMod P) (y2 : ZMod P)) := by
    unfold addPtX
    rw [hp, cast_fmod]
    push_cast
    rw [hgc]
    simp only [WeierstrassCurve.Affine.addX, curveW]
    ring
  have hY : ((addPtY ctx x1 x2 y1 y2 : Int) : ZMod P)
      = (curveW P ctx.a ctx.b).addY (x1 : ZMod P) (x2 : ZMod P) (y1 : ZMod P)
          ((curveW P ctx.a ctx.b).slope (x1 : ZMod P) (x2 : ZMod P)
            (y1 : ZMod P) (y2 : ZMod P)) := by
    unfold addPtY
    rw [hp, cast_fmod]
    push_cast
    rw [hgc, hX]
    simp only [WeierstrassCurve.Affine.addY, WeierstrassCurve.Affine.negAddY,
      WeierstrassCurve.Affine.negY, curveW]
    ring
  have h3 : (curveW P ctx.a ctx.b).Nonsingular
      ((addPtX ctx x1 x2 y1 y2 : Int) : ZMod P)
      ((addPtY ctx x1 x2 y1 y2 : Int) : ZMod P) := by
    rw [hX, hY]
    exact WeierstrassCurve.Affine.nonsingular_add h1 h2 hxy
  refine ⟨h3, ?_⟩
  rw [WeierstrassCurve.Affine.Point.add_of_imp hxy]
  exact point_some_congr hX.symm hY.symm _ h3

end GostSign

namespace GostSign

theorem addPtX_nonneg (ctx : SignCtx) (h : 0 < ctx.p) (a b c d : Int) :
    0 ≤ addPtX ctx a b c d := by
  unfold addPtX
  exact Int.fmod_nonneg' _ h

theorem addPtX_lt (ctx : SignCtx) (h : 0 < ctx.p) (a b c d : Int) :
    addPtX ctx a b c d < ctx.p := by
  unfold addPtX
  exact Int.fmod_lt_of_pos _ h

theorem addPtY_nonneg (ctx : SignCtx) (h : 0 < ctx.p) (a b c d : Int) :
    0 ≤ addPtY ctx a b c d := by
  unfold addPtY
  exact Int.fmod_nonneg' _ h

theorem addPtY_lt (ctx : SignCtx) (h : 0 < ctx.p) (a b c d : Int) :
    addPtY ctx a b c d < ctx.p := by
  unfold addPtY
  exact Int.fmod_lt_of_pos _ h

theorem mulLoop_group (P : ℕ) [hP : Fact P.Prime] (ctx : SignCtx)
    (hp : ctx.p = (P : Int)) (hpsz : ctx.p ≤ 256 ^ ctx.size) :
    ∀ (bs : List Int) (next prev : Int × Int),
      0 ≤ next.1 → next.1 < ctx.p → 0 ≤ next.2 → next.2 < ctx.p →
      0 ≤ prev.1 → prev.1 < ctx.p → 0 ≤ prev.2 → prev.2 < ctx.p →
      ∀ (hN : (curveW P ctx.a ctx.b).Nonsingular (next.1 : ZMod P) (next.2 : ZMod P))
        (hV : (curveW P ctx.a ctx.b).Nonsingular (prev.1 : ZMod P) (prev.2 : ZMod P)),
      mulLoopSafe ctx bs next prev = true →
      ∃ (r : Int × Int)
        (hR : (curveW P ctx.a ctx.b).Nonsingular (r.1 : ZMod P) (r.2 : ZMod P)),
        mulLoop ctx bs next prev = some r ∧
        0 ≤ r.1 ∧ r.1 < ctx.p ∧ 0 ≤ r.2 ∧ r.2 < ctx.p ∧
        WeierstrassCurve.Affine.Point.some hR
          = WeierstrassCurve.Affine.Point.some hN
            + (ofBits01 bs) • WeierstrassCurve.Affine.Point.some hV := by
  have hppos : (0 : Int) < ctx.p := by
    rw [hp]
    exact_mod_cast hP.out.pos
  intro bs
  induction bs with
  | nil =>
      intro next prev hn1 hn1' hn2 hn2' _ _ _ _ hN hV _
      refine ⟨next, hN, rfl, hn1, hn1', hn2, hn2', ?_⟩
      show _ = _ + (0 : ℕ) • _
      rw [zero_nsmul, add_zero]
  | cons b rest ih =>
      intro next prev hn1 hn1' hn2 hn2' hv1 hv1' hv2 hv2' hN hV hsafe
      have hd_eq : addPt ctx prev.1 prev.1 prev.2 prev.2 =
          some (addPtX ctx prev.1 prev.1 prev.2 prev.2,
                addPtY ctx prev.1 prev.1 prev.2 prev.2) :=
        addPt_eq ctx prev.1 prev.1 prev.2 prev.2
          hv1 (lt_of_lt_of_le hv1' hpsz) hv1 (lt_of_lt_of_le hv1' hpsz)
          hv2 (lt_of_lt_of_le hv2' hpsz) hv2 (lt_of_lt_of_le hv2' hpsz)
      by_cases hb : b = 1
      · have ha_eq : addPt ctx next.1 prev.1 next.2 prev.2 =
            some (addPtX ctx next.1 prev.1 next.2 prev.2,
                  addPtY ctx next.1 prev.1 next.2 prev.2) :=
          addPt_eq ctx next.1 prev.1 next.2 prev.2
            hn1 (lt_of_lt_of_le hn1' hpsz) hv1 (lt_of_lt_of_le hv1' hpsz)
            hn2 (lt_of_lt_of_le hn2' hpsz) hv2 (lt_of_lt_of_le hv2' hpsz)
        simp only [mulLoopSafe, if_pos hb, ha_eq, hd_eq] at hsafe
        rw [Bool.and_eq_true, Bool.and_eq_true] at hsafe
        obtain ⟨⟨hs1, hs2⟩, hs3⟩ := hsafe
        obtain ⟨hA, sumA⟩ := addPt_group P ctx hp next.1 prev.1 next.2 prev.2 hn2 hN hV hs1
        obtain ⟨hD, sumD⟩ := addPt_group P ctx hp prev.1 prev.1 prev.2 prev.2 hv2 hV hV hs2
        obtain ⟨r, hR, hloop, hr1, hr1', hr2, hr2', hsum⟩ :=
          ih (addPtX ctx next.1 prev.1 next.2 prev.2,
              addPtY ctx next.1 prev.1 next.2 prev.2)
             (addPtX ctx prev.1 prev.1 prev.2 prev.2,
              addPtY ctx prev.1 prev.1 prev.2 prev.2)
             (addPtX_nonneg ctx hppos _ _ _ _) (addPtX_lt ctx hppos _ _ _ _)
             (addPtY_nonneg ctx hppos _ _ _ _) (addPtY_lt ctx hppos _ _ _ _)
             (addPtX_nonneg ctx hppos _ _ _ _) (addPtX_lt ctx hppos _ _ _ _)
             (addPtY_nonneg ctx hppos _ _ _ _) (addPtY_lt ctx hppos _ _ _ _)
             hA hD hs3
        refine ⟨r, hR, ?_, hr1, hr1', hr2, hr2', ?_⟩
        · simp only [mulLoop, if_pos hb, ha_eq, hd_eq, Option.bind_some,
            Option.some_bind]
          exact hloop
        · rw [hsum, ← sumA, ← sumD]
          have hlen : ofBits01 (b :: rest) = 1 + 2 * ofBits01 rest := by
            simp [ofBits01, hb]
          rw [hlen, nsmul_add, add_nsmul, one_nsmul, two_mul, add_nsmul, add_assoc]
      · simp only [mulLoopSafe, if_neg hb, hd_eq] at hsafe
        rw [Bool.and_eq_true, Bool.and_eq_true] at hsafe
        obtain ⟨⟨_, hs2⟩, hs3⟩ := hsafe
        obtain ⟨hD, sumD⟩ := addPt_group P ctx hp prev.1 prev.1 prev.2 prev.2 hv2 hV hV hs2
        obtain ⟨r, hR, hloop, hr1, hr1', hr2, hr2', hsum⟩ :=
          ih next
             (addPtX ctx prev.1 prev.1 prev.2 prev.2,
              addPtY ctx prev.1 prev.1 prev.2 prev.2)
             hn1 hn1' hn2 hn2'
             (addPtX_nonneg ctx hppos _ _ _ _) (addPtX_lt ctx hppos _ _ _ _)
             (addPtY_nonneg ctx hppos _ _ _ _) (addPtY_lt ctx hppos _ _ _ _)
             hN hD hs3
        refine ⟨r, hR, ?_, hr1, hr1', hr2, hr2', ?_⟩
        · simp only [mulLoop, if_neg hb, hd_eq, Option.bind_some, Option.some_bind]
          exact hloop
        · rw [hsum, ← sumD]
          have hlen : ofBits01 (b :: rest) = 2 * ofBits01 rest := by
            simp [ofBits01, hb]
          rw [hlen, nsmul_add, two_mul, add_nsmul]

end GostSign

namespace GostSign

theorem mulPoint_group (P : ℕ) [hP : Fact P.Prime] (ctx : SignCtx)
    (hp : ctx.p = (P : Int)) (hpsz : ctx.p ≤ 256 ^ ctx.size)
    (k : Int) (hk : 1 ≤ k) (x_op y_op : Option Int)
    (hs1 : 0 ≤ (if truthy x_op || truthy y_op then x_op.getD 0 else ctx.x))
    (hs1' : (if truthy x_op || truthy y_op then x_op.getD 0 else ctx.x) < ctx.p)
    (hs2 : 0 ≤ (if truthy x_op || truthy y_op then y_op.getD 0 else ctx.y))
    (hs2' : (if truthy x_op || truthy y_op then y_op.getD 0 else ctx.y) < ctx.p)
    (hS : (curveW P ctx.a ctx.b).Nonsingular
      ((if truthy x_op || truthy y_op then x_op.getD 0 else ctx.x : Int) : ZMod P)
      ((if truthy x_op || truthy y_op then y_op.getD 0 else ctx.y : Int) : ZMod P))
    (hsafe : mulPointSafe ctx k x_op y_op = true) :
    ∃ (r : Int × Int)
      (hR : (curveW P ctx.a ctx.b).Nonsingular (r.1 : ZMod P) (r.2 : ZMod P)),
      mulPoint ctx k x_op y_op = .ok r ∧
      0 ≤ r.1 ∧ r.1 < ctx.p ∧ 0 ≤ r.2 ∧ r.2 < ctx.p ∧
      WeierstrassCurve.Affine.Point.some hR
        = k.toNat • WeierstrassCurve.Affine.Point.some hS := by
  have hkneg : ¬ (k - 1 < 0) := by omega
  unfold mulPointSafe bits at hsafe
  simp only [if_neg hkneg] at hsafe
  obtain ⟨r, hR, hloop, hr1, hr1', hr2, hr2', hsum⟩ :=
    mulLoop_group P ctx hp hpsz (bitsNat (k - 1).toNat)
      (if truthy x_op || truthy y_op then x_op.getD 0 else ctx.x,
       if truthy x_op || truthy y_op then y_op.getD 0 else ctx.y)
      (if truthy x_op || truthy y_op then x_op.getD 0 else ctx.x,
       if truthy x_op || truthy y_op then y_op.getD 0 else ctx.y)
      hs1 hs1' hs2 hs2' hs1 hs1' hs2 hs2' hS hS hsafe
  refine ⟨r, hR, ?_, hr1, hr1', hr2, hr2', ?_⟩
  · unfold mulPoint bits
    simp only [if_neg hkneg]
    rw [hloop]
  · rw [hsum, ofBits01_bitsNat]
    have hkn : k.toNat = 1 + (k - 1).toNat := by omega
    rw [hkn, add_nsmul, one_nsmul]

end GostSign

namespace GostSign

instance fact_prime_five : Fact (Nat.Prime 5) := ⟨by norm_num⟩

/-- C4 (amended): for a context over a prime field (`ctx.p = P`, `P` prime,
fitting the encoding width), an affine point `(xP, yP)` of the curve other
than `(0, 0)`, and a scalar `k ∈ [1, q)` none of whose addition steps
encounters the point at infinity (`mulPointSafe`), `_mul_point(k, (xP, yP))`
returns an affine point that represents exactly the value computed by the
ordinary textbook double-and-add algorithm, `[k]·(xP, yP)`.  The exclusion
of `(0, 0)` is necessary: the source's `if x_op or y_op` truthiness test
replaces the point `(0, 0)` by the context base point (see the
counterexample). -/
theorem C4_mul_point_refines_double_and_add (P : ℕ) [hP : Fact P.Prime]
    (ctx : SignCtx) (hp : ctx.p = (P : Int)) (hpsz : ctx.p ≤ 256 ^ ctx.size)
    (xP yP : Int)
    (hx : 0 ≤ xP) (hx' : xP < ctx.p) (hy : 0 ≤ yP) (hy' : yP < ctx.p)
    (hnz : ¬ (xP = 0 ∧ yP = 0))
    (hPt : (curveW P ctx.a ctx.b).Nonsingular (xP : ZMod P) (yP : ZMod P))
    (k : Int) (hk : 1 ≤ k) (hkq : k < ctx.q)
    (hsafe : mulPointSafe ctx k (some xP) (some yP) = true) :
    ∃ (r : Int × Int)
      (hR : (curveW P ctx.a ctx.b).Nonsingular (r.1 : ZMod P) (r.2 : ZMod P)),
      mulPoint ctx k (some xP) (some yP) = .ok r ∧
      0 ≤ r.1 ∧ r.1 < ctx.p ∧ 0 ≤ r.2 ∧ r.2 < ctx.p ∧
      WeierstrassCurve.Affine.Point.some hR
        = dblAdd k.toNat (WeierstrassCurve.Affine.Point.some hPt) := by
  have hcond : (truthy (some xP) || truthy (some yP)) = true := by
    rcases not_and_or.mp hnz with h | h
    · have ht : truthy (some xP) = true := by
        unfold truthy
        exact bne_iff_ne.mpr h
      rw [ht, Bool.true_or]
    · have ht : truthy (some yP) = true := by
        unfold truthy
        exact bne_iff_ne.mpr h
      rw [ht, Bool.or_true]
  have hex : (if truthy (some xP) || truthy (some yP) then (some xP).getD 0 else ctx.x)
      = xP := by
    simp [hcond]
  have hey : (if truthy (some xP) || truthy (some yP) then (some yP).getD 0 else ctx.y)
      = yP := by
    simp [hcond]
  have hS : (curveW P ctx.a ctx.b).Nonsingular
      (((if truthy (some xP) || truthy (some yP) then (some xP).getD 0 else ctx.x : Int)
        : ZMod P))
      (((if truthy (some xP) || truthy (some yP) then (some yP).getD 0 else ctx.y : Int)
        : ZMod P)) := by
    rw [hex, hey]
    exact hPt
  obtain ⟨r, hR, hok, h1, h2, h3, h4, hsum⟩ :=
    mulPoint_group P ctx hp hpsz k hk (some xP) (some yP)
      (by rw [hex]; exact hx) (by rw [hex]; exact hx')
      (by rw [hey]; exact hy) (by rw [hey]; exact hy') hS hsafe
  refine ⟨r, hR, hok, h1, h2, h3, h4, ?_⟩
  rw [hsum, dblAdd_eq_smul]
  congr 1
  exact point_some_congr (by rw [hex]) (by rw [hey]) hS hPt

/-- The witness context: the curve `y² = x³ + x + 1` over `F₅` with base
point `(0, 1)` of order 9 and `q = 3`, encoded in one byte. -/
def c4WitCtx : SignCtx :=
  ⟨5, 1, 1, none, none, 0, 3, 0, 1, none, none, 1⟩

theorem c4WitNons : (curveW 5 c4WitCtx.a c4WitCtx.b).Nonsingular
    ((0 : Int) : ZMod 5) ((1 : Int) : ZMod 5) := by
  rw [WeierstrassCurve.Affine.nonsingular_iff, WeierstrassCurve.Affine.equation_iff]
  decide

theorem C4_mul_point_refines_double_and_add_witness :
    ∃ (r : Int × Int)
      (hR : (curveW 5 c4WitCtx.a c4WitCtx.b).Nonsingular (r.1 : ZMod 5) (r.2 : ZMod 5)),
      mulPoint c4WitCtx 2 (some 0) (some 1) = .ok r ∧
      0 ≤ r.1 ∧ r.1 < c4WitCtx.p ∧ 0 ≤ r.2 ∧ r.2 < c4WitCtx.p ∧
      WeierstrassCurve.Affine.Point.some hR
        = dblAdd (Int.toNat 2) (WeierstrassCurve.Affine.Point.some c4WitNons) :=
  C4_mul_point_refines_double_and_add 5 c4WitCtx (by decide) (by decide)
    0 1 (by decide) (by decide) (by decide) (by decide) (by decide) c4WitNons
    2 (by decide) (by decide) (by decide)

end GostSign

namespace GostSign

/-- Parameter set accepted by the M256 constructor: the curve `y² = x³ + x`
over `F₅` with base point `(2, 0)`, `m = 0` and `q = 2^254`. -/
def c4Ctx : SignCtx :=
  ⟨5, 1, 0, none, none, 0, 2 ^ 254, 2, 0, none, none, 32⟩

/-- C4 counterexample: in the constructed context `c4Ctx`, the point
`(0, 0)` is an affine point of the curve (nonsingular solution of the curve
equation), the scalar `k = 1` involves no addition step at all (so the
claim's side condition is vacuous), and textbook double-and-add gives
`[1]·(0, 0) = (0, 0)`; yet `_mul_point(1, (0, 0))` returns the context base
point `(2, 0)`: the source's `if x_op or y_op` truthiness test treats the
all-zero coordinates like absent arguments, refuting the claim (in
particular its own special case `_mul_point(1, P) = P`). -/
theorem C4_counterexample_mul_point_at_zero_point :
    gostInit MODE_256 5 (some 1) (some 0) none none 0 (2 ^ 254) (some 2) (some 0)
        none none = .ok c4Ctx ∧
    (∃ h00 : (curveW 5 c4Ctx.a c4Ctx.b).Nonsingular ((0 : Int) : ZMod 5)
        ((0 : Int) : ZMod 5),
      dblAdd (Int.toNat 1) (WeierstrassCurve.Affine.Point.some h00)
        = WeierstrassCurve.Affine.Point.some h00) ∧
    mulPointSafe c4Ctx 1 (some 0) (some 0) = true ∧
    mulPoint c4Ctx 1 (some 0) (some 0) = .ok (2, 0) ∧
    ((2 : Int), (0 : Int)) ≠ ((0 : Int), (0 : Int)) := by
  refine ⟨by decide, ?_, by decide, by decide, by decide⟩
  have h00 : (curveW 5 c4Ctx.a c4Ctx.b).Nonsingular ((0 : Int) : ZMod 5)
      ((0 : Int) : ZMod 5) := by
    rw [WeierstrassCurve.Affine.nonsingular_iff, WeierstrassCurve.Affine.equation_iff]
    decide
  refine ⟨h00, ?_⟩
  rw [dblAdd_eq_smul]
  show (1 : ℕ) • _ = _
  rw [one_nsmul]

end GostSign
